import Mathlib

/-!
Verification of the webhooks connection/protocol layer of `klippy/webhooks.py`:
frame codec (terminator-delimited JSON), request construction and routing,
response lifecycle, the outbound-send state machine, and the status
subscription engine.  Machine strings are `List Char`; JSON values are the
inductive `JVal`.  `json.dumps` / `json.loads` of the Python standard library
(an external dependency of the source file) are modelled by `dumps` /
`json_loads` below on the JSON fragment the server exchanges: null, booleans,
integers, strings, arrays and objects, with Python 2's default separators
(", " and ": ") and `ensure_ascii` escaping.
-/

def chars (s : String) : List Char := s.toList

/-- A JSON value as exchanged on the webhooks socket. -/
inductive JVal where
  | null
  | bool (b : Bool)
  | int (n : Int)
  | str (s : List Char)
  | arr (elems : List JVal)
  | obj (members : List (List Char × JVal))

/-- Decimal digit character, `Char.ofNat (48 + d)` for `d < 10`. -/
def digitChar (d : Nat) : Char := Char.ofNat (48 + d)

/-- Lowercase hexadecimal digit character (Python's `'%04x'` formatting). -/
def hexChar (d : Nat) : Char := Char.ofNat (if d < 10 then 48 + d else 87 + d)

/-- Four lowercase hex digits, most significant first (`'\\u%04x' % n`). -/
def toHex4 (n : Nat) : List Char :=
  [hexChar (n / 4096 % 16), hexChar (n / 256 % 16), hexChar (n / 16 % 16), hexChar (n % 16)]

/-- Decimal digits of `n`, most significant first; `fuel`-bounded so that the
kernel can evaluate it (`natToChars` supplies sufficient fuel). -/
def natToCharsAux : Nat → Nat → List Char
  | 0, _ => []
  | fuel + 1, n =>
    if n < 10 then [digitChar n]
    else natToCharsAux fuel (n / 10) ++ [digitChar (n % 10)]

def natToChars (n : Nat) : List Char := natToCharsAux (n + 1) n

/-- Decimal rendering of an integer, as Python prints an `int`. -/
def intToChars : Int → List Char
  | .ofNat m => natToChars m
  | .negSucc m => '-' :: natToChars (m + 1)

/-- Python 2 `json.dumps` escaping of one string character
(`py_encode_basestring_ascii` with the default `ensure_ascii=True`):
the short escapes, `\uXXXX` for other characters outside `0x20..0x7E`
(as a surrogate pair above `0xFFFF`), and the character itself otherwise. -/
def escapeChar (c : Char) : List Char :=
  if c = '"' then ['\\', '"']
  else if c = '\\' then ['\\', '\\']
  else if c = Char.ofNat 8 then ['\\', 'b']
  else if c = Char.ofNat 12 then ['\\', 'f']
  else if c = '\n' then ['\\', 'n']
  else if c = Char.ofNat 13 then ['\\', 'r']
  else if c = '\t' then ['\\', 't']
  else if c.toNat < 32 ∨ 126 < c.toNat then
    if c.toNat < 65536 then '\\' :: 'u' :: toHex4 c.toNat
    else ('\\' :: 'u' :: toHex4 (55296 + (c.toNat - 65536) / 1024)) ++
         ('\\' :: 'u' :: toHex4 (56320 + (c.toNat - 65536) % 1024))
  else [c]

def escapeStr : List Char → List Char
  | [] => []
  | c :: s => escapeChar c ++ escapeStr s

mutual
/-- Python 2 `json.dumps` on the modelled JSON fragment: default separators
`", "` and `": "`, `ensure_ascii` string escaping, no added whitespace. -/
def dumps : JVal → List Char
  | .null => 'n' :: ['u', 'l', 'l']
  | .bool true => 't' :: ['r', 'u', 'e']
  | .bool false => 'f' :: ['a', 'l', 's', 'e']
  | .int n => intToChars n
  | .str s => '"' :: escapeStr s ++ ['"']
  | .arr xs => '[' :: dumpsItems xs ++ [']']
  | .obj ms => '{' :: dumpsMembers ms ++ ['}']

/-- Array elements joined by `", "`. -/
def dumpsItems : List JVal → List Char
  | [] => []
  | [x] => dumps x
  | x :: y :: xs => dumps x ++ ',' :: ' ' :: dumpsItems (y :: xs)

/-- Object members `"key": value` joined by `", "`. -/
def dumpsMembers : List (List Char × JVal) → List Char
  | [] => []
  | [(k, v)] => '"' :: escapeStr k ++ '"' :: ':' :: ' ' :: dumps v
  | (k, v) :: m :: ms =>
    ('"' :: escapeStr k ++ '"' :: ':' :: ' ' :: dumps v) ++ ',' :: ' ' :: dumpsMembers (m :: ms)
end

/-! ### The decoder, modelling Python's `json.loads` on the same fragment -/

def isDigitChar (c : Char) : Bool := 48 ≤ c.toNat && c.toNat ≤ 57

def isWsChar (c : Char) : Bool :=
  c.toNat = 32 || c.toNat = 9 || c.toNat = 10 || c.toNat = 13

def skipWs (l : List Char) : List Char := l.dropWhile isWsChar

def digitsToNat (ds : List Char) : Nat := ds.foldl (fun a c => 10 * a + (c.toNat - 48)) 0

/-- Maximal run of leading decimal digits, as a number plus the remainder. -/
def parseNat (l : List Char) : Option (Nat × List Char) :=
  match l.takeWhile isDigitChar with
  | [] => none
  | ds => some (digitsToNat ds, l.dropWhile isDigitChar)

def hexDigitVal (c : Char) : Option Nat :=
  if 48 ≤ c.toNat ∧ c.toNat ≤ 57 then some (c.toNat - 48)
  else if 97 ≤ c.toNat ∧ c.toNat ≤ 102 then some (c.toNat - 87)
  else if 65 ≤ c.toNat ∧ c.toNat ≤ 70 then some (c.toNat - 55)
  else none

def parseHex4 : List Char → Option (Nat × List Char)
  | a :: b :: c :: d :: rest =>
    match hexDigitVal a, hexDigitVal b, hexDigitVal c, hexDigitVal d with
    | some x, some y, some z, some w => some (((x * 16 + y) * 16 + z) * 16 + w, rest)
    | _, _, _, _ => none
  | _ => none

/-- Low half of a `\uXXXX\uXXXX` surrogate pair: the four hex digits after
the second `\u`, recombined with the high half `n`. -/
def parseSurrogateLow (n : Nat) (l : List Char) : Option (Char × List Char) :=
  match parseHex4 l with
  | some (m, rest4) =>
    if 56320 ≤ m ∧ m ≤ 57343 then
      some (Char.ofNat (65536 + (n - 55296) * 1024 + (m - 56320)), rest4)
    else none
  | none => none

/-- Continuation of a `\u` escape: four hex digits, possibly followed by a
second `\uXXXX` unit when the first lies in the high-surrogate range. -/
def parseEscapeU (rest : List Char) : Option (Char × List Char) :=
  match parseHex4 rest with
  | none => none
  | some (n, rest2) =>
    if 55296 ≤ n ∧ n ≤ 56319 then
      if rest2.head? = some '\\' ∧ rest2.tail.head? = some 'u' then
        parseSurrogateLow n rest2.tail.tail
      else none
    else if 56320 ≤ n ∧ n ≤ 57343 then none
    else some (Char.ofNat n, rest2)

/-- One JSON string escape sequence (after the backslash), including
surrogate-pair recombination for `\uXXXX` pairs. -/
def parseEscape : List Char → Option (Char × List Char)
  | [] => none
  | c :: rest =>
    if c = '"' then some ('"', rest)
    else if c = '\\' then some ('\\', rest)
    else if c = '/' then some ('/', rest)
    else if c = 'b' then some (Char.ofNat 8, rest)
    else if c = 'f' then some (Char.ofNat 12, rest)
    else if c = 'n' then some ('\n', rest)
    else if c = 'r' then some (Char.ofNat 13, rest)
    else if c = 't' then some ('\t', rest)
    else if c = 'u' then parseEscapeU rest
    else none

/-- Body of a JSON string after the opening quote, up to and including the
closing quote.  `fuel` decreases once per produced character. -/
def parseStrBody : Nat → List Char → Option (List Char × List Char)
  | 0, _ => none
  | _ + 1, [] => none
  | fuel + 1, c :: rest =>
    if c = '"' then some ([], rest)
    else if c = '\\' then
      match parseEscape rest with
      | some (ch, r) =>
        (match parseStrBody fuel r with
        | some (s, r2) => some (ch :: s, r2)
        | none => none)
      | none => none
    else
      match parseStrBody fuel rest with
      | some (s, r2) => some (c :: s, r2)
      | none => none

mutual
/-- One JSON value.  `fuel` decreases on each nested value / element step. -/
def parseVal : Nat → List Char → Option (JVal × List Char)
  | 0, _ => none
  | _ + 1, [] => none
  | fuel + 1, c :: rest =>
    if c = 'n' then
      match rest with
      | 'u' :: 'l' :: 'l' :: r => some (.null, r)
      | _ => none
    else if c = 't' then
      match rest with
      | 'r' :: 'u' :: 'e' :: r => some (.bool true, r)
      | _ => none
    else if c = 'f' then
      match rest with
      | 'a' :: 'l' :: 's' :: 'e' :: r => some (.bool false, r)
      | _ => none
    else if c = '-' then
      match parseNat rest with
      | some (n, r) => some (.int (-(n : Int)), r)
      | none => none
    else if isDigitChar c then
      match parseNat (c :: rest) with
      | some (n, r) => some (.int (n : Int), r)
      | none => none
    else if c = '"' then
      match parseStrBody (rest.length + 1) rest with
      | some (s, r) => some (.str s, r)
      | none => none
    else if c = '[' then
      let r := skipWs rest
      if r.head? = some ']' then some (.arr [], r.tail)
      else
        match parseArrItems fuel r with
        | some (vs, r2) => some (.arr vs, r2)
        | none => none
    else if c = '{' then
      let r := skipWs rest
      if r.head? = some '}' then some (.obj [], r.tail)
      else
        match parseObjItems fuel r with
        | some (ms, r2) => some (.obj ms, r2)
        | none => none
    else none

/-- Elements of a non-empty array, consuming the closing bracket. -/
def parseArrItems : Nat → List Char → Option (List JVal × List Char)
  | 0, _ => none
  | fuel + 1, input =>
    match parseVal fuel input with
    | none => none
    | some (v, rest) =>
      let r := skipWs rest
      if r.head? = some ',' then
        match parseArrItems fuel (skipWs r.tail) with
        | some (vs, r2) => some (v :: vs, r2)
        | none => none
      else if r.head? = some ']' then some ([v], r.tail)
      else none

/-- Members of a non-empty object, consuming the closing brace. -/
def parseObjItems : Nat → List Char → Option (List (List Char × JVal) × List Char)
  | 0, _ => none
  | _ + 1, [] => none
  | fuel + 1, c :: rest =>
    if c = '"' then
      match parseStrBody (rest.length + 1) rest with
      | none => none
      | some (k, r1) =>
        let r2 := skipWs r1
        if r2.head? = some ':' then
          match parseVal fuel (skipWs r2.tail) with
          | none => none
          | some (v, r3) =>
            let r4 := skipWs r3
            if r4.head? = some ',' then
              match parseObjItems fuel (skipWs r4.tail) with
              | some (ms, r5) => some ((k, v) :: ms, r5)
              | none => none
            else if r4.head? = some '}' then some ([(k, v)], r4.tail)
            else none
        else none
    else none
end

/-- `json.loads` on one frame: one JSON value, allowing surrounding
whitespace, nothing else. -/
def json_loads (l : List Char) : Option JVal :=
  match parseVal (l.length + 1) (skipWs l) with
  | some (v, rest) => if skipWs rest = [] then some v else none
  | none => none

/-! ### Character-level facts -/

theorem char_toNat_ofNat {n : Nat} (h : n.isValidChar) : (Char.ofNat n).toNat = n := by
  unfold Char.ofNat
  split
  · rfl
  · contradiction

theorem char_toNat_valid (n : Nat) (h : n < 55296 ∨ (57344 ≤ n ∧ n < 1114112)) :
    (Char.ofNat n).toNat = n :=
  char_toNat_ofNat (by rcases h with h | ⟨h1, h2⟩; exact Or.inl h; exact Or.inr ⟨h1, h2⟩)

theorem char_valid_facts (c : Char) :
    c.toNat < 1114112 ∧ ¬ (55296 ≤ c.toNat ∧ c.toNat ≤ 57343) := by
  have h := c.valid
  unfold UInt32.isValidChar Nat.isValidChar at h
  have hv : c.toNat = c.val.toNat := rfl
  rw [hv]
  constructor
  · rcases h with h | ⟨h1, h2⟩
    · have : c.val.toNat < 55296 := by exact_mod_cast h
      omega
    · exact_mod_cast h2
  · rcases h with h | ⟨h1, h2⟩
    · have : c.val.toNat < 55296 := by exact_mod_cast h
      omega
    · have : 57344 ≤ c.val.toNat := by exact_mod_cast h1
      omega

theorem char_eq_of_toNat (c : Char) (n : Nat) (h : c.toNat = n) : Char.ofNat n = c := by
  subst h; exact Char.ofNat_toNat c

theorem char_ne_of_toNat_ne {c d : Char} (h : c.toNat ≠ d.toNat) : c ≠ d := by
  intro he; exact h (by rw [he])

/-! ### Decimal digits -/

theorem digitChar_toNat {d : Nat} (h : d < 10) : (digitChar d).toNat = 48 + d :=
  char_toNat_valid _ (Or.inl (by omega))

theorem isDigitChar_digitChar {d : Nat} (h : d < 10) : isDigitChar (digitChar d) = true := by
  simp only [isDigitChar, digitChar_toNat h, Bool.and_eq_true, decide_eq_true_eq]
  omega

theorem isDigitChar_iff (c : Char) : isDigitChar c = true ↔ 48 ≤ c.toNat ∧ c.toNat ≤ 57 := by
  simp [isDigitChar]

theorem natToCharsAux_spec : ∀ fuel n, n < fuel →
    natToCharsAux fuel n ≠ [] ∧ (∀ c ∈ natToCharsAux fuel n, isDigitChar c = true) ∧
      digitsToNat (natToCharsAux fuel n) = n := by
  intro fuel
  induction fuel with
  | zero => omega
  | succ f ih =>
    intro n hn
    by_cases h10 : n < 10
    · refine ⟨by simp [natToCharsAux, h10], ?_, ?_⟩
      · intro c hc
        simp only [natToCharsAux, if_pos h10, List.mem_singleton] at hc
        subst hc; exact isDigitChar_digitChar h10
      · simp [natToCharsAux, if_pos h10, digitsToNat, digitChar_toNat h10]
    · have hdiv : n / 10 < f := by omega
      obtain ⟨hne, hall, hval⟩ := ih (n / 10) hdiv
      refine ⟨by simp [natToCharsAux, h10], ?_, ?_⟩
      · intro c hc
        simp only [natToCharsAux, if_neg h10, List.mem_append, List.mem_singleton] at hc
        rcases hc with hc | hc
        · exact hall c hc
        · subst hc; exact isDigitChar_digitChar (by omega)
      · simp only [natToCharsAux, if_neg h10, digitsToNat, List.foldl_append, List.foldl_cons,
          List.foldl_nil]
        have hval' : List.foldl (fun a c => 10 * a + (c.toNat - 48)) 0 (natToCharsAux f (n / 10))
            = n / 10 := hval
        rw [hval', digitChar_toNat (by omega : n % 10 < 10)]
        omega

theorem natToChars_ne_nil (n : Nat) : natToChars n ≠ [] :=
  (natToCharsAux_spec (n + 1) n (by omega)).1

theorem natToChars_digits (n : Nat) : ∀ c ∈ natToChars n, isDigitChar c = true :=
  (natToCharsAux_spec (n + 1) n (by omega)).2.1

theorem digitsToNat_natToChars (n : Nat) : digitsToNat (natToChars n) = n :=
  (natToCharsAux_spec (n + 1) n (by omega)).2.2

/-- Characters following a serialized value never glue to a number: the
remainder is empty or starts with a non-digit. -/
def safeRest : List Char → Bool
  | [] => true
  | c :: _ => !isDigitChar c

theorem takeWhile_append_all {p : Char → Bool} : ∀ {a b : List Char},
    (∀ c ∈ a, p c = true) → (a ++ b).takeWhile p = a ++ b.takeWhile p := by
  intro a
  induction a with
  | nil => simp
  | cons c a' ih =>
    intro b h
    simp only [List.cons_append, List.takeWhile_cons, h c (by simp), if_true]
    rw [ih (fun d hd => h d (by simp [hd]))]

theorem dropWhile_append_all {p : Char → Bool} : ∀ {a b : List Char},
    (∀ c ∈ a, p c = true) → (a ++ b).dropWhile p = b.dropWhile p := by
  intro a
  induction a with
  | nil => simp
  | cons c a' ih =>
    intro b h
    simp only [List.cons_append, List.dropWhile_cons, h c (by simp)]
    exact ih (fun d hd => h d (by simp [hd]))

theorem takeWhile_safeRest {b : List Char} (h : safeRest b = true) :
    b.takeWhile isDigitChar = [] := by
  cases b with
  | nil => rfl
  | cons c t =>
    simp only [safeRest, Bool.not_eq_true'] at h
    simp [List.takeWhile_cons, h]

theorem dropWhile_safeRest {b : List Char} (h : safeRest b = true) :
    b.dropWhile isDigitChar = b := by
  cases b with
  | nil => rfl
  | cons c t =>
    simp only [safeRest, Bool.not_eq_true'] at h
    simp [List.dropWhile_cons, h]

theorem parseNat_natToChars (n : Nat) (rest : List Char) (h : safeRest rest = true) :
    parseNat (natToChars n ++ rest) = some (n, rest) := by
  unfold parseNat
  rw [takeWhile_append_all (natToChars_digits n), takeWhile_safeRest h,
    dropWhile_append_all (natToChars_digits n), dropWhile_safeRest h]
  simp [natToChars_ne_nil n, digitsToNat_natToChars n]

/-! ### Hexadecimal -/

theorem hexVal_hexChar {d : Nat} (h : d < 16) : hexDigitVal (hexChar d) = some d := by
  unfold hexChar hexDigitVal
  by_cases h10 : d < 10
  · rw [if_pos h10, char_toNat_valid (48 + d) (Or.inl (by omega)), if_pos (by omega)]
    simp
  · rw [if_neg h10, char_toNat_valid (87 + d) (Or.inl (by omega)), if_neg (by omega),
      if_pos (by omega)]
    simp

theorem parseHex4_toHex4 {n : Nat} (h : n < 65536) (rest : List Char) :
    parseHex4 (toHex4 n ++ rest) = some (n, rest) := by
  unfold toHex4 parseHex4
  simp only [List.cons_append, List.nil_append]
  rw [hexVal_hexChar (by omega), hexVal_hexChar (by omega), hexVal_hexChar (by omega),
    hexVal_hexChar (by omega)]
  simp only [Option.some.injEq, Prod.mk.injEq]
  constructor
  · omega
  · trivial

/-! ### String escaping round trip -/

theorem parseEscapeU_some {rest : List Char} {n : Nat} {rest2 : List Char}
    (h : parseHex4 rest = some (n, rest2)) :
    parseEscapeU rest =
      if 55296 ≤ n ∧ n ≤ 56319 then
        if rest2.head? = some '\\' ∧ rest2.tail.head? = some 'u' then
          parseSurrogateLow n rest2.tail.tail
        else none
      else if 56320 ≤ n ∧ n ≤ 57343 then none
      else some (Char.ofNat n, rest2) := by
  unfold parseEscapeU
  rw [h]

theorem parseSurrogateLow_some (n : Nat) {l : List Char} {m : Nat} {rest4 : List Char}
    (h : parseHex4 l = some (m, rest4)) :
    parseSurrogateLow n l =
      if 56320 ≤ m ∧ m ≤ 57343 then
        some (Char.ofNat (65536 + (n - 55296) * 1024 + (m - 56320)), rest4)
      else none := by
  unfold parseSurrogateLow
  rw [h]

theorem parseEscape_u (X : List Char) : parseEscape ('u' :: X) = parseEscapeU X := rfl

theorem toHex4_cons_append (a : Nat) (x : List Char) :
    ('u' :: toHex4 a) ++ x = 'u' :: (toHex4 a ++ x) := rfl

theorem toHex4_pair_append (a b : Nat) (r : List Char) :
    ('u' :: toHex4 a ++ '\\' :: 'u' :: toHex4 b) ++ r =
      'u' :: (toHex4 a ++ ('\\' :: 'u' :: (toHex4 b ++ r))) := rfl

theorem surrogate_tail_tail (b : Nat) (r : List Char) :
    ('\\' :: 'u' :: (toHex4 b ++ r)).tail.tail = toHex4 b ++ r := rfl

theorem surrogate_head_cond (b : Nat) (r : List Char) :
    ('\\' :: 'u' :: (toHex4 b ++ r)).head? = some '\\' ∧
      ('\\' :: 'u' :: (toHex4 b ++ r)).tail.head? = some 'u' := ⟨rfl, rfl⟩

/-- Parsing the `\uXXXX` rendering of a BMP character recovers it. -/
theorem parseEscapeU_bmp (c : Char) (r : List Char) (h9 : c.toNat < 65536) :
    parseEscapeU (toHex4 c.toNat ++ r) = some (c, r) := by
  obtain ⟨hlt, hsur⟩ := char_valid_facts c
  have hA : ¬(55296 ≤ c.toNat ∧ c.toNat ≤ 56319) :=
    fun hh => hsur ⟨hh.1, Nat.le_trans hh.2 (by decide)⟩
  have hB : ¬(56320 ≤ c.toNat ∧ c.toNat ≤ 57343) :=
    fun hh => hsur ⟨Nat.le_trans (by decide) hh.1, hh.2⟩
  rw [parseEscapeU_some (parseHex4_toHex4 h9 r), if_neg hA, if_neg hB, Char.ofNat_toNat]

/-- Parsing the surrogate-pair rendering of an astral character recovers it. -/
theorem parseEscapeU_surrogate (c : Char) (r : List Char) (h9 : ¬ c.toNat < 65536) :
    parseEscapeU (toHex4 (55296 + (c.toNat - 65536) / 1024) ++
      ('\\' :: 'u' :: (toHex4 (56320 + (c.toNat - 65536) % 1024) ++ r))) = some (c, r) := by
  obtain ⟨hlt, hsur⟩ := char_valid_facts c
  set hi := 55296 + (c.toNat - 65536) / 1024 with hi_def
  set lo := 56320 + (c.toNat - 65536) % 1024 with lo_def
  have hhi : hi < 65536 := by omega
  have hlo2 : lo < 65536 := by omega
  have hAB : 55296 ≤ hi ∧ hi ≤ 56319 := ⟨by omega, by omega⟩
  have hCD : 56320 ≤ lo ∧ lo ≤ 57343 := ⟨by omega, by omega⟩
  have harith : 65536 + (hi - 55296) * 1024 + (lo - 56320) = c.toNat := by omega
  rw [parseEscapeU_some (parseHex4_toHex4 hhi ('\\' :: 'u' :: (toHex4 lo ++ r))),
    if_pos hAB, if_pos (surrogate_head_cond lo r), surrogate_tail_tail lo r,
    parseSurrogateLow_some hi (parseHex4_toHex4 hlo2 r), if_pos hCD, harith,
    Char.ofNat_toNat]

theorem escapeChar_spec (c : Char) (r : List Char) :
    (escapeChar c = [c] ∧ c ≠ '"' ∧ c ≠ '\\') ∨
    (∃ t, escapeChar c = '\\' :: t ∧ parseEscape (t ++ r) = some (c, r)) := by
  unfold escapeChar
  by_cases h1 : c = '"'
  · right
    refine ⟨['"'], by simp [h1], ?_⟩
    simp [parseEscape, h1]
  by_cases h2 : c = '\\'
  · right
    refine ⟨['\\'], by simp [h1, h2], ?_⟩
    simp [parseEscape, h2]
  by_cases h3 : c = Char.ofNat 8
  · right
    refine ⟨['b'], by simp [h1, h2, h3], ?_⟩
    simp [parseEscape, h3]
  by_cases h4 : c = Char.ofNat 12
  · right
    refine ⟨['f'], by simp [h1, h2, h3, h4], ?_⟩
    simp [parseEscape, h4]
  by_cases h5 : c = '\n'
  · right
    refine ⟨['n'], by simp [h1, h2, h3, h4, h5], ?_⟩
    simp [parseEscape, h5]
  by_cases h6 : c = Char.ofNat 13
  · right
    refine ⟨['r'], by simp [h1, h2, h3, h4, h5, h6], ?_⟩
    simp [parseEscape, h6]
  by_cases h7 : c = '\t'
  · right
    refine ⟨['t'], by simp [h1, h2, h3, h4, h5, h6, h7], ?_⟩
    simp [parseEscape, h7]
  by_cases h8 : c.toNat < 32 ∨ 126 < c.toNat
  · right
    rw [if_neg h1, if_neg h2, if_neg h3, if_neg h4, if_neg h5, if_neg h6, if_neg h7, if_pos h8]
    obtain ⟨hlt, hsur⟩ := char_valid_facts c
    by_cases h9 : c.toNat < 65536
    · refine ⟨'u' :: toHex4 c.toNat, by rw [if_pos h9], ?_⟩
      rw [toHex4_cons_append, parseEscape_u, parseEscapeU_bmp c r h9]
    · refine ⟨'u' :: toHex4 (55296 + (c.toNat - 65536) / 1024) ++
        '\\' :: 'u' :: toHex4 (56320 + (c.toNat - 65536) % 1024), by
          rw [if_neg h9]; exact rfl, ?_⟩
      rw [toHex4_pair_append, parseEscape_u, parseEscapeU_surrogate c r h9]
  · left
    rw [if_neg h1, if_neg h2, if_neg h3, if_neg h4, if_neg h5, if_neg h6, if_neg h7, if_neg h8]
    exact ⟨rfl, h1, h2⟩

theorem escapeChar_length_pos (c : Char) : 1 ≤ (escapeChar c).length := by
  unfold escapeChar
  split_ifs <;> simp [toHex4]

theorem escapeStr_length_ge : ∀ s : List Char, s.length ≤ (escapeStr s).length := by
  intro s
  induction s with
  | nil => simp [escapeStr]
  | cons c s' ih =>
    have := escapeChar_length_pos c
    simp only [escapeStr, List.length_append, List.length_cons]
    omega

theorem parseStrBody_quote (f : Nat) (rest : List Char) :
    parseStrBody (f + 1) ('"' :: rest) = some ([], rest) := rfl

theorem parseStrBody_other (f : Nat) (c : Char) (X : List Char) (s' rest : List Char)
    (hq : ¬ c = '"') (hb : ¬ c = '\\') (h : parseStrBody f X = some (s', rest)) :
    parseStrBody (f + 1) (c :: X) = some (c :: s', rest) := by
  unfold parseStrBody
  rw [if_neg hq, if_neg hb, h]

theorem parseStrBody_esc (f : Nat) (Y : List Char) (ch : Char) (s' rest R : List Char)
    (hp : parseEscape Y = some (ch, R)) (h : parseStrBody f R = some (s', rest)) :
    parseStrBody (f + 1) ('\\' :: Y) = some (ch :: s', rest) := by
  unfold parseStrBody
  rw [if_neg (show ¬('\\' = '"') by decide), if_pos rfl, hp]
  show (match parseStrBody f R with
    | some (s, r2) => some (ch :: s, r2)
    | none => none) = some (ch :: s', rest)
  rw [h]

/-- Parsing an escaped string body up to the closing quote recovers the
original string and leaves the remainder untouched. -/
theorem parseStrBody_escapeStr : ∀ (s : List Char) (fuel : Nat) (rest : List Char),
    s.length < fuel → parseStrBody fuel (escapeStr s ++ '"' :: rest) = some (s, rest) := by
  intro s
  induction s with
  | nil =>
    intro fuel rest h
    cases fuel with
    | zero => omega
    | succ f => exact parseStrBody_quote f rest
  | cons c s' ih =>
    intro fuel rest h
    cases fuel with
    | zero => omega
    | succ f =>
      have hX := ih f rest (by simp at h; omega)
      rcases escapeChar_spec c (escapeStr s' ++ '"' :: rest) with ⟨hc, hq, hb⟩ | ⟨t, hc, hp⟩
      · rw [show escapeStr (c :: s') ++ '"' :: rest = c :: (escapeStr s' ++ '"' :: rest) by
          rw [show escapeStr (c :: s') = escapeChar c ++ escapeStr s' from rfl, hc]; simp]
        exact parseStrBody_other f c _ s' rest hq hb hX
      · rw [show escapeStr (c :: s') ++ '"' :: rest =
          '\\' :: (t ++ (escapeStr s' ++ '"' :: rest)) by
          rw [show escapeStr (c :: s') = escapeChar c ++ escapeStr s' from rfl, hc]; simp]
        exact parseStrBody_esc f _ c s' rest _ hp hX

/-! ### Head characters of serialized values -/

theorem digit_head_ok (c : Char) (h : isDigitChar c = true) :
    isWsChar c = false ∧ c ≠ ']' ∧ c ≠ '}' := by
  have h2 := (isDigitChar_iff c).1 h
  refine ⟨?_, ?_, ?_⟩
  · simp only [isWsChar, Bool.or_eq_false_iff, decide_eq_false_iff_not]
    omega
  · intro he; subst he; exact absurd h2 (by decide)
  · intro he; subst he; exact absurd h2 (by decide)

theorem natToChars_head (m : Nat) :
    ∃ c t, natToChars m = c :: t ∧ isDigitChar c = true := by
  obtain ⟨c, t, h⟩ := List.exists_cons_of_ne_nil (natToChars_ne_nil m)
  exact ⟨c, t, h, natToChars_digits m c (h ▸ List.mem_cons_self c t)⟩

/-- Every serialized value starts with a character that is not whitespace and
not a closing bracket. -/
theorem dumps_head_spec (v : JVal) :
    ∃ c t, dumps v = c :: t ∧ isWsChar c = false ∧ c ≠ ']' ∧ c ≠ '}' := by
  cases v with
  | null => refine ⟨'n', _, rfl, ?_, ?_, ?_⟩ <;> decide
  | bool b =>
    cases b
    case true => refine ⟨'t', _, rfl, ?_, ?_, ?_⟩ <;> decide
    case false => refine ⟨'f', _, rfl, ?_, ?_, ?_⟩ <;> decide
  | int n =>
    cases n with
    | ofNat m =>
      obtain ⟨c, t, h, hd⟩ := natToChars_head m
      obtain ⟨w1, w2, w3⟩ := digit_head_ok c hd
      exact ⟨c, t, by rw [show dumps (.int (.ofNat m)) = natToChars m from rfl, h], w1, w2, w3⟩
    | negSucc m => exact ⟨'-', _, rfl, by decide, by decide, by decide⟩
  | str s => exact ⟨'"', _, rfl, by decide, by decide, by decide⟩
  | arr xs => exact ⟨'[', _, rfl, by decide, by decide, by decide⟩
  | obj ms => exact ⟨'{', _, rfl, by decide, by decide, by decide⟩

theorem dumps_len_pos (v : JVal) : 1 ≤ (dumps v).length := by
  obtain ⟨c, t, h, -, -, -⟩ := dumps_head_spec v
  simp [h]

theorem dumpsItems_decompose (x : JVal) (xs : List JVal) :
    ∃ R, dumpsItems (x :: xs) = dumps x ++ R := by
  cases xs with
  | nil => exact ⟨[], by simp [dumpsItems]⟩
  | cons y t => exact ⟨',' :: ' ' :: dumpsItems (y :: t), rfl⟩

theorem dumpsMembers_head (m : List Char × JVal) (ms : List (List Char × JVal)) :
    ∃ S, dumpsMembers (m :: ms) = '"' :: S := by
  obtain ⟨k, v⟩ := m
  cases ms with
  | nil => exact ⟨escapeStr k ++ '"' :: ':' :: ' ' :: dumps v, rfl⟩
  | cons m2 t =>
    exact ⟨escapeStr k ++ '"' :: ':' :: ' ' :: dumps v ++ ',' :: ' ' :: dumpsMembers (m2 :: t),
      by rw [show dumpsMembers ((k, v) :: m2 :: t) =
        ('"' :: escapeStr k ++ '"' :: ':' :: ' ' :: dumps v) ++ ',' :: ' ' :: dumpsMembers (m2 :: t)
        from rfl]; simp⟩

theorem skipWs_not_ws {c : Char} (l : List Char) (h : isWsChar c = false) :
    skipWs (c :: l) = c :: l := by
  simp [skipWs, List.dropWhile_cons, h]

theorem skipWs_space (l : List Char) : skipWs (' ' :: l) = skipWs l := by
  simp [skipWs, List.dropWhile_cons, show isWsChar ' ' = true by decide]

/-! ### Fuel bounds for the parser -/

mutual
/-- Fuel sufficient for `parseVal` on the serialization of `v`. -/
def fnVal : JVal → Nat
  | .null => 1
  | .bool _ => 1
  | .int _ => 1
  | .str _ => 1
  | .arr xs => 1 + fnItems xs
  | .obj ms => 1 + fnMembers ms

def fnItems : List JVal → Nat
  | [] => 1
  | x :: xs => 1 + max (fnVal x) (fnItems xs)

def fnMembers : List (List Char × JVal) → Nat
  | [] => 1
  | (_, v) :: ms => 1 + max (fnVal v) (fnMembers ms)
end

theorem fnVal_pos (v : JVal) : 1 ≤ fnVal v := by
  cases v <;> simp [fnVal]

theorem fnItems_pos (xs : List JVal) : 1 ≤ fnItems xs := by
  cases xs <;> simp [fnItems]

theorem fnMembers_pos (ms : List (List Char × JVal)) : 1 ≤ fnMembers ms := by
  cases ms with
  | nil => simp [fnMembers]
  | cons m t => obtain ⟨k, v⟩ := m; simp [fnMembers]

mutual
theorem fnVal_le_len (v : JVal) : fnVal v ≤ (dumps v).length := by
  match v with
  | .null => simp [fnVal, dumps]
  | .bool true => simp [fnVal, dumps]
  | .bool false => simp [fnVal, dumps]
  | .int n => exact le_trans (by simp [fnVal]) (dumps_len_pos (.int n))
  | .str s => exact le_trans (by simp [fnVal]) (dumps_len_pos (.str s))
  | .arr [] => simp [fnVal, fnItems, dumps, dumpsItems]
  | .arr (x :: xs) =>
    have h := fnItems_le_len x xs
    simp only [fnVal, show dumps (.arr (x :: xs)) = '[' :: dumpsItems (x :: xs) ++ [']']
      from rfl, List.length_cons, List.length_append, List.length_singleton]
    omega
  | .obj [] => simp [fnVal, fnMembers, dumps, dumpsMembers]
  | .obj (m :: ms) =>
    have h := fnMembers_le_len m ms
    simp only [fnVal, show dumps (.obj (m :: ms)) = '{' :: dumpsMembers (m :: ms) ++ ['}']
      from rfl, List.length_cons, List.length_append, List.length_singleton]
    omega
termination_by sizeOf v

theorem fnItems_le_len (x : JVal) (xs : List JVal) :
    fnItems (x :: xs) ≤ (dumpsItems (x :: xs)).length + 1 := by
  match xs with
  | [] =>
    have h1 := fnVal_le_len x
    have h2 := dumps_len_pos x
    simp only [fnItems, show fnItems ([] : List JVal) = 1 from rfl,
      show dumpsItems [x] = dumps x from rfl]
    omega
  | y :: t =>
    have h1 := fnVal_le_len x
    have h2 := fnItems_le_len y t
    have h3 := dumps_len_pos x
    rw [show fnItems (x :: y :: t) = 1 + max (fnVal x) (fnItems (y :: t)) from rfl]
    simp only [show dumpsItems (x :: y :: t) = dumps x ++ ',' :: ' ' :: dumpsItems (y :: t)
      from rfl, List.length_append, List.length_cons]
    omega
termination_by sizeOf x + sizeOf xs

theorem fnMembers_le_len (m : List Char × JVal) (ms : List (List Char × JVal)) :
    fnMembers (m :: ms) ≤ (dumpsMembers (m :: ms)).length + 1 := by
  obtain ⟨k, v⟩ := m
  match ms with
  | [] =>
    have h1 := fnVal_le_len v
    have h2 := dumps_len_pos v
    simp only [fnMembers, show fnMembers ([] : List (List Char × JVal)) = 1 from rfl,
      show dumpsMembers [(k, v)] = '"' :: escapeStr k ++ '"' :: ':' :: ' ' :: dumps v from rfl,
      List.length_cons, List.length_append]
    omega
  | m2 :: t =>
    have h1 := fnVal_le_len v
    have h2 := fnMembers_le_len m2 t
    have h3 := dumps_len_pos v
    rw [show fnMembers ((k, v) :: m2 :: t) = 1 + max (fnVal v) (fnMembers (m2 :: t)) from rfl]
    simp only [show dumpsMembers ((k, v) :: m2 :: t) =
      ('"' :: escapeStr k ++ '"' :: ':' :: ' ' :: dumps v) ++ ',' :: ' ' :: dumpsMembers (m2 :: t)
      from rfl, List.length_cons, List.length_append]
    omega
termination_by sizeOf m + sizeOf ms
end

/-! ### Evaluation lemmas for the value parser -/

theorem parseVal_null (f : Nat) (r : List Char) :
    parseVal (f + 1) ('n' :: 'u' :: 'l' :: 'l' :: r) = some (.null, r) := rfl

theorem parseVal_true (f : Nat) (r : List Char) :
    parseVal (f + 1) ('t' :: 'r' :: 'u' :: 'e' :: r) = some (.bool true, r) := rfl

theorem parseVal_false (f : Nat) (r : List Char) :
    parseVal (f + 1) ('f' :: 'a' :: 'l' :: 's' :: 'e' :: r) = some (.bool false, r) := rfl

theorem parseVal_digit (f : Nat) (c : Char) (rest : List Char) (h : isDigitChar c = true)
    (n : Nat) (R : List Char) (hp : parseNat (c :: rest) = some (n, R)) :
    parseVal (f + 1) (c :: rest) = some (.int (n : Int), R) := by
  have h2 := (isDigitChar_iff c).1 h
  have hn : ¬ c = 'n' := by intro he; subst he; exact absurd h2 (by decide)
  have ht : ¬ c = 't' := by intro he; subst he; exact absurd h2 (by decide)
  have hf : ¬ c = 'f' := by intro he; subst he; exact absurd h2 (by decide)
  have hm : ¬ c = '-' := by intro he; subst he; exact absurd h2 (by decide)
  unfold parseVal
  rw [if_neg hn, if_neg ht, if_neg hf, if_neg hm, if_pos h, hp]

theorem parseVal_neg (f : Nat) (rest : List Char) (n : Nat) (R : List Char)
    (hp : parseNat rest = some (n, R)) :
    parseVal (f + 1) ('-' :: rest) = some (.int (-(n : Int)), R) := by
  unfold parseVal
  rw [if_neg (show ¬('-' = 'n') by decide), if_neg (show ¬('-' = 't') by decide),
    if_neg (show ¬('-' = 'f') by decide), if_pos rfl, hp]

theorem parseVal_quote (f : Nat) (rest : List Char) (s R : List Char)
    (hp : parseStrBody (rest.length + 1) rest = some (s, R)) :
    parseVal (f + 1) ('"' :: rest) = some (.str s, R) := by
  unfold parseVal
  rw [if_neg (show ¬('"' = 'n') by decide), if_neg (show ¬('"' = 't') by decide),
    if_neg (show ¬('"' = 'f') by decide), if_neg (show ¬('"' = '-') by decide),
    if_neg (show ¬(isDigitChar '"' = true) by decide), if_pos rfl, hp]

theorem parseVal_arr_nil (f : Nat) (r : List Char) :
    parseVal (f + 1) ('[' :: ']' :: r) = some (.arr [], r) := rfl

theorem parseVal_arr_cons (f : Nat) (l : List Char) (c : Char) (t : List Char)
    (vs : List JVal) (R : List Char) (hl : l = c :: t) (hws : isWsChar c = false)
    (hne : ¬ c = ']') (hp : parseArrItems f l = some (vs, R)) :
    parseVal (f + 1) ('[' :: l) = some (.arr vs, R) := by
  subst hl
  unfold parseVal
  rw [if_neg (show ¬('[' = 'n') by decide), if_neg (show ¬('[' = 't') by decide),
    if_neg (show ¬('[' = 'f') by decide), if_neg (show ¬('[' = '-') by decide),
    if_neg (show ¬(isDigitChar '[' = true) by decide), if_neg (show ¬('[' = '"') by decide),
    if_pos rfl]
  rw [show skipWs (c :: t) = c :: t from skipWs_not_ws t hws]
  rw [if_neg (show ¬((c :: t).head? = some ']') by
    simp only [List.head?_cons, Option.some.injEq]; exact hne)]
  rw [hp]

theorem parseVal_obj_nil (f : Nat) (r : List Char) :
    parseVal (f + 1) ('{' :: '}' :: r) = some (.obj [], r) := rfl

theorem parseVal_obj_cons (f : Nat) (t : List Char)
    (ms : List (List Char × JVal)) (R : List Char)
    (hp : parseObjItems f ('"' :: t) = some (ms, R)) :
    parseVal (f + 1) ('{' :: '"' :: t) = some (.obj ms, R) := by
  unfold parseVal
  rw [if_neg (show ¬('{' = 'n') by decide), if_neg (show ¬('{' = 't') by decide),
    if_neg (show ¬('{' = 'f') by decide), if_neg (show ¬('{' = '-') by decide),
    if_neg (show ¬(isDigitChar '{' = true) by decide), if_neg (show ¬('{' = '"') by decide),
    if_neg (show ¬('{' = '[') by decide), if_pos rfl]
  rw [show skipWs ('"' :: t) = '"' :: t from skipWs_not_ws t (by decide)]
  rw [if_neg (show ¬(('"' :: t).head? = some '}') by
    simp only [List.head?_cons, Option.some.injEq]; decide)]
  rw [hp]

theorem parseArrItems_last (f : Nat) (input : List Char) (v : JVal) (R : List Char)
    (hv : parseVal f input = some (v, ']' :: R)) :
    parseArrItems (f + 1) input = some ([v], R) := by
  unfold parseArrItems
  rw [hv]
  show (let r := skipWs (']' :: R)
    if r.head? = some ',' then
      match parseArrItems f (skipWs r.tail) with
      | some (vs, r2) => some (v :: vs, r2)
      | none => none
    else if r.head? = some ']' then some ([v], r.tail)
    else none) = some ([v], R)
  rw [show skipWs (']' :: R) = ']' :: R from skipWs_not_ws R (by decide)]
  exact rfl

theorem parseArrItems_cons (f : Nat) (input : List Char) (v : JVal) (l : List Char)
    (c : Char) (t : List Char) (vs : List JVal) (R : List Char)
    (hv : parseVal f input = some (v, ',' :: ' ' :: l)) (hl : l = c :: t)
    (hws : isWsChar c = false) (hp : parseArrItems f l = some (vs, R)) :
    parseArrItems (f + 1) input = some (v :: vs, R) := by
  unfold parseArrItems
  rw [hv]
  show (let r := skipWs (',' :: ' ' :: l)
    if r.head? = some ',' then
      match parseArrItems f (skipWs r.tail) with
      | some (vs, r2) => some (v :: vs, r2)
      | none => none
    else if r.head? = some ']' then some ([v], r.tail)
    else none) = some (v :: vs, R)
  rw [show skipWs (',' :: ' ' :: l) = ',' :: ' ' :: l from skipWs_not_ws _ (by decide)]
  show (if (',' :: ' ' :: l).head? = some ',' then
      match parseArrItems f (skipWs (' ' :: l)) with
      | some (vs, r2) => some (v :: vs, r2)
      | none => none
    else if (',' :: ' ' :: l).head? = some ']' then some ([v], ' ' :: l)
    else none) = some (v :: vs, R)
  rw [if_pos (show (',' :: ' ' :: l).head? = some ',' from rfl),
    skipWs_space l, hl, skipWs_not_ws t hws, ← hl, hp]

theorem parseObjItems_last (f : Nat) (rest : List Char) (k r1 : List Char) (v : JVal)
    (R : List Char)
    (hk : parseStrBody (rest.length + 1) rest = some (k, ':' :: ' ' :: r1))
    (hws1 : skipWs r1 = r1) (hv : parseVal f r1 = some (v, '}' :: R)) :
    parseObjItems (f + 1) ('"' :: rest) = some ([(k, v)], R) := by
  unfold parseObjItems
  rw [if_pos (show ('"' : Char) = '"' from rfl), hk]
  show (let r2 := skipWs (':' :: ' ' :: r1)
    if r2.head? = some ':' then
      match parseVal f (skipWs r2.tail) with
      | none => none
      | some (v, r3) =>
        let r4 := skipWs r3
        if r4.head? = some ',' then
          match parseObjItems f (skipWs r4.tail) with
          | some (ms, r5) => some ((k, v) :: ms, r5)
          | none => none
        else if r4.head? = some '}' then some ([(k, v)], r4.tail)
        else none
    else none) = some ([(k, v)], R)
  rw [show skipWs (':' :: ' ' :: r1) = ':' :: ' ' :: r1 from skipWs_not_ws _ (by decide)]
  show (if (':' :: ' ' :: r1).head? = some ':' then
      match parseVal f (skipWs (' ' :: r1)) with
      | none => none
      | some (v, r3) =>
        let r4 := skipWs r3
        if r4.head? = some ',' then
          match parseObjItems f (skipWs r4.tail) with
          | some (ms, r5) => some ((k, v) :: ms, r5)
          | none => none
        else if r4.head? = some '}' then some ([(k, v)], r4.tail)
        else none
    else none) = some ([(k, v)], R)
  rw [if_pos (show (':' :: ' ' :: r1).head? = some ':' from rfl), skipWs_space r1, hws1, hv]
  show (let r4 := skipWs ('}' :: R)
    if r4.head? = some ',' then
      match parseObjItems f (skipWs r4.tail) with
      | some (ms, r5) => some ((k, v) :: ms, r5)
      | none => none
    else if r4.head? = some '}' then some ([(k, v)], r4.tail)
    else none) = some ([(k, v)], R)
  rw [show skipWs ('}' :: R) = '}' :: R from skipWs_not_ws R (by decide)]
  exact rfl

theorem parseObjItems_cons (f : Nat) (rest : List Char) (k r1 : List Char) (v : JVal)
    (t2 : List Char) (ms : List (List Char × JVal)) (R : List Char)
    (hk : parseStrBody (rest.length + 1) rest = some (k, ':' :: ' ' :: r1))
    (hws1 : skipWs r1 = r1)
    (hv : parseVal f r1 = some (v, ',' :: ' ' :: '"' :: t2))
    (hm : parseObjItems f ('"' :: t2) = some (ms, R)) :
    parseObjItems (f + 1) ('"' :: rest) = some ((k, v) :: ms, R) := by
  unfold parseObjItems
  rw [if_pos (show ('"' : Char) = '"' from rfl), hk]
  show (let r2 := skipWs (':' :: ' ' :: r1)
    if r2.head? = some ':' then
      match parseVal f (skipWs r2.tail) with
      | none => none
      | some (v, r3) =>
        let r4 := skipWs r3
        if r4.head? = some ',' then
          match parseObjItems f (skipWs r4.tail) with
          | some (ms, r5) => some ((k, v) :: ms, r5)
          | none => none
        else if r4.head? = some '}' then some ([(k, v)], r4.tail)
        else none
    else none) = some ((k, v) :: ms, R)
  rw [show skipWs (':' :: ' ' :: r1) = ':' :: ' ' :: r1 from skipWs_not_ws _ (by decide)]
  show (if (':' :: ' ' :: r1).head? = some ':' then
      match parseVal f (skipWs (' ' :: r1)) with
      | none => none
      | some (v, r3) =>
        let r4 := skipWs r3
        if r4.head? = some ',' then
          match parseObjItems f (skipWs r4.tail) with
          | some (ms, r5) => some ((k, v) :: ms, r5)
          | none => none
        else if r4.head? = some '}' then some ([(k, v)], r4.tail)
        else none
    else none) = some ((k, v) :: ms, R)
  rw [if_pos (show (':' :: ' ' :: r1).head? = some ':' from rfl), skipWs_space r1, hws1, hv]
  show (let r4 := skipWs (',' :: ' ' :: '"' :: t2)
    if r4.head? = some ',' then
      match parseObjItems f (skipWs r4.tail) with
      | some (ms, r5) => some ((k, v) :: ms, r5)
      | none => none
    else if r4.head? = some '}' then some ([(k, v)], r4.tail)
    else none) = some ((k, v) :: ms, R)
  rw [show skipWs (',' :: ' ' :: '"' :: t2) = ',' :: ' ' :: '"' :: t2 from
    skipWs_not_ws _ (by decide)]
  show (if (',' :: ' ' :: '"' :: t2).head? = some ',' then
      match parseObjItems f (skipWs (' ' :: '"' :: t2)) with
      | some (ms, r5) => some ((k, v) :: ms, r5)
      | none => none
    else if (',' :: ' ' :: '"' :: t2).head? = some '}' then some ([(k, v)], ' ' :: '"' :: t2)
    else none) = some ((k, v) :: ms, R)
  rw [if_pos (show (',' :: ' ' :: '"' :: t2).head? = some ',' from rfl), skipWs_space ('"' :: t2),
    show skipWs ('"' :: t2) = '"' :: t2 from skipWs_not_ws _ (by decide), hm]

/-! ### The round-trip theorem for the JSON codec -/

theorem parse_dumps_all : ∀ fuel : Nat,
    (∀ (v : JVal) (rest : List Char), fnVal v ≤ fuel → safeRest rest = true →
      parseVal fuel (dumps v ++ rest) = some (v, rest)) ∧
    (∀ (x : JVal) (xs : List JVal) (rest : List Char), fnItems (x :: xs) ≤ fuel →
      parseArrItems fuel (dumpsItems (x :: xs) ++ ']' :: rest) = some (x :: xs, rest)) ∧
    (∀ (m : List Char × JVal) (ms : List (List Char × JVal)) (rest : List Char),
      fnMembers (m :: ms) ≤ fuel →
      parseObjItems fuel (dumpsMembers (m :: ms) ++ '}' :: rest) = some (m :: ms, rest)) := by
  intro fuel
  induction fuel with
  | zero =>
    refine ⟨fun v rest h1 _ => absurd h1 (by have := fnVal_pos v; omega),
      fun x xs rest h1 => absurd h1 (by have := fnItems_pos (x :: xs); omega),
      fun m ms rest h1 => absurd h1 (by have := fnMembers_pos (m :: ms); omega)⟩
  | succ f ih =>
    obtain ⟨IHv, IHa, IHo⟩ := ih
    refine ⟨?_, ?_, ?_⟩
    · intro v rest hfn hsafe
      cases v with
      | null => exact parseVal_null f rest
      | bool b =>
        cases b with
        | true => exact parseVal_true f rest
        | false => exact parseVal_false f rest
      | int n =>
        cases n with
        | ofNat m =>
          obtain ⟨c, t, hct, hd⟩ := natToChars_head m
          have hp : parseNat (c :: (t ++ rest)) = some (m, rest) := by
            rw [show c :: (t ++ rest) = (c :: t) ++ rest from rfl, ← hct]
            exact parseNat_natToChars m rest hsafe
          rw [show dumps (.int (.ofNat m)) ++ rest = c :: (t ++ rest) by
            rw [show dumps (.int (.ofNat m)) = natToChars m from rfl, hct]; rfl]
          exact parseVal_digit f c (t ++ rest) hd m rest hp
        | negSucc m =>
          have hp := parseNat_natToChars (m + 1) rest hsafe
          rw [show dumps (.int (.negSucc m)) ++ rest = '-' :: (natToChars (m + 1) ++ rest)
            from rfl]
          exact parseVal_neg f _ (m + 1) rest hp
      | str s =>
        have hlen : s.length < (escapeStr s ++ '"' :: rest).length + 1 := by
          have := escapeStr_length_ge s
          simp only [List.length_append, List.length_cons]
          omega
        have hp := parseStrBody_escapeStr s ((escapeStr s ++ '"' :: rest).length + 1) rest hlen
        rw [show dumps (.str s) ++ rest = '"' :: (escapeStr s ++ '"' :: rest) by
          rw [show dumps (.str s) = '"' :: escapeStr s ++ ['"'] from rfl]; simp]
        exact parseVal_quote f _ s rest hp
      | arr xs =>
        cases xs with
        | nil => exact parseVal_arr_nil f rest
        | cons x xs' =>
          rw [show dumps (.arr (x :: xs')) ++ rest =
            '[' :: (dumpsItems (x :: xs') ++ ']' :: rest) by
            rw [show dumps (.arr (x :: xs')) = '[' :: dumpsItems (x :: xs') ++ [']'] from rfl]
            simp]
          obtain ⟨R, hR⟩ := dumpsItems_decompose x xs'
          obtain ⟨c, t, hct, hws, hne, -⟩ := dumps_head_spec x
          have hl : dumpsItems (x :: xs') ++ ']' :: rest = c :: (t ++ (R ++ ']' :: rest)) := by
            rw [hR, hct]; simp
          have hbound : fnItems (x :: xs') ≤ f := by
            rw [show fnVal (.arr (x :: xs')) = 1 + fnItems (x :: xs') from rfl] at hfn
            omega
          exact parseVal_arr_cons f _ c (t ++ (R ++ ']' :: rest)) (x :: xs') rest hl hws hne
            (IHa x xs' rest hbound)
      | obj ms =>
        cases ms with
        | nil => exact parseVal_obj_nil f rest
        | cons m ms' =>
          obtain ⟨S, hS⟩ := dumpsMembers_head m ms'
          rw [show dumps (.obj (m :: ms')) ++ rest = '{' :: ('"' :: (S ++ '}' :: rest)) by
            rw [show dumps (.obj (m :: ms')) = '{' :: dumpsMembers (m :: ms') ++ ['}'] from rfl,
              hS]; simp]
          have hbound : fnMembers (m :: ms') ≤ f := by
            rw [show fnVal (.obj (m :: ms')) = 1 + fnMembers (m :: ms') from rfl] at hfn
            omega
          have hp := IHo m ms' rest hbound
          rw [hS] at hp
          exact parseVal_obj_cons f (S ++ '}' :: rest) (m :: ms') rest hp
    · intro x xs rest hfn
      cases xs with
      | nil =>
        have hbound : fnVal x ≤ f := by
          rw [show fnItems [x] = 1 + max (fnVal x) (fnItems []) from rfl,
            show fnItems ([] : List JVal) = 1 from rfl] at hfn
          omega
        have hv := IHv x (']' :: rest) hbound rfl
        exact parseArrItems_last f _ x rest hv
      | cons y t =>
        have hb : fnVal x ≤ f ∧ fnItems (y :: t) ≤ f := by
          rw [show fnItems (x :: y :: t) = 1 + max (fnVal x) (fnItems (y :: t)) from rfl] at hfn
          omega
        have hv := IHv x (',' :: ' ' :: (dumpsItems (y :: t) ++ ']' :: rest)) hb.1 rfl
        rw [show dumpsItems (x :: y :: t) ++ ']' :: rest =
          dumps x ++ (',' :: ' ' :: (dumpsItems (y :: t) ++ ']' :: rest)) by
          rw [show dumpsItems (x :: y :: t) = dumps x ++ ',' :: ' ' :: dumpsItems (y :: t)
            from rfl]; simp]
        obtain ⟨R2, hR2⟩ := dumpsItems_decompose y t
        obtain ⟨c, t2, hct, hws, -, -⟩ := dumps_head_spec y
        have hl : dumpsItems (y :: t) ++ ']' :: rest = c :: (t2 ++ (R2 ++ ']' :: rest)) := by
          rw [hR2, hct]; simp
        exact parseArrItems_cons f _ x _ c _ (y :: t) rest hv hl hws (IHa y t rest hb.2)
    · intro m ms rest hfn
      obtain ⟨k, v⟩ := m
      cases ms with
      | nil =>
        have hbound : fnVal v ≤ f := by
          rw [show fnMembers [(k, v)] = 1 + max (fnVal v) (fnMembers []) from rfl,
            show fnMembers ([] : List (List Char × JVal)) = 1 from rfl] at hfn
          omega
        have hws1 : skipWs (dumps v ++ '}' :: rest) = dumps v ++ '}' :: rest := by
          obtain ⟨c, t, hct, hws, -, -⟩ := dumps_head_spec v
          rw [hct, List.cons_append]
          exact skipWs_not_ws _ hws
        have hv := IHv v ('}' :: rest) hbound rfl
        have hk := parseStrBody_escapeStr k
          ((escapeStr k ++ '"' :: (':' :: ' ' :: (dumps v ++ '}' :: rest))).length + 1)
          (':' :: ' ' :: (dumps v ++ '}' :: rest))
          (by have := escapeStr_length_ge k
              simp only [List.length_append, List.length_cons]
              omega)
        rw [show dumpsMembers [(k, v)] ++ '}' :: rest =
          '"' :: (escapeStr k ++ '"' :: (':' :: ' ' :: (dumps v ++ '}' :: rest))) by
          rw [show dumpsMembers [(k, v)] = '"' :: escapeStr k ++ '"' :: ':' :: ' ' :: dumps v
            from rfl]; simp]
        exact parseObjItems_last f _ k _ v rest hk hws1 hv
      | cons m2 t =>
        obtain ⟨S, hS⟩ := dumpsMembers_head m2 t
        have hb : fnVal v ≤ f ∧ fnMembers (m2 :: t) ≤ f := by
          rw [show fnMembers ((k, v) :: m2 :: t) = 1 + max (fnVal v) (fnMembers (m2 :: t))
            from rfl] at hfn
          omega
        have hws1 : skipWs (dumps v ++ ',' :: ' ' :: '"' :: (S ++ '}' :: rest)) =
            dumps v ++ ',' :: ' ' :: '"' :: (S ++ '}' :: rest) := by
          obtain ⟨c, t3, hct, hws, -, -⟩ := dumps_head_spec v
          rw [hct, List.cons_append]
          exact skipWs_not_ws _ hws
        have hv := IHv v (',' :: ' ' :: (dumpsMembers (m2 :: t) ++ '}' :: rest)) hb.1 rfl
        rw [hS] at hv
        rw [show ('"' :: S) ++ '}' :: rest = '"' :: (S ++ '}' :: rest) from rfl] at hv
        have hm := IHo m2 t rest hb.2
        rw [hS] at hm
        rw [show ('"' :: S) ++ '}' :: rest = '"' :: (S ++ '}' :: rest) from rfl] at hm
        have hk := parseStrBody_escapeStr k
          ((escapeStr k ++ '"' ::
            (':' :: ' ' :: (dumps v ++ ',' :: ' ' :: '"' :: (S ++ '}' :: rest)))).length + 1)
          (':' :: ' ' :: (dumps v ++ ',' :: ' ' :: '"' :: (S ++ '}' :: rest)))
          (by have := escapeStr_length_ge k
              simp only [List.length_append, List.length_cons]
              omega)
        rw [show dumpsMembers ((k, v) :: m2 :: t) ++ '}' :: rest =
          '"' :: (escapeStr k ++ '"' ::
            (':' :: ' ' :: (dumps v ++ ',' :: ' ' :: '"' :: (S ++ '}' :: rest)))) by
          rw [show dumpsMembers ((k, v) :: m2 :: t) =
            ('"' :: escapeStr k ++ '"' :: ':' :: ' ' :: dumps v) ++
              ',' :: ' ' :: dumpsMembers (m2 :: t) from rfl, hS]; simp]
        exact parseObjItems_cons f _ k _ v _ (m2 :: t) rest hk hws1 hv hm

/-- Core round-trip: decoding the serialization of any JSON value, followed by
arbitrary residue that does not start with a digit, recovers the value. -/
theorem parseVal_dumps (v : JVal) (rest : List Char) (hsafe : safeRest rest = true) :
    parseVal ((dumps v).length + 1) (dumps v ++ rest) = some (v, rest) :=
  (parse_dumps_all ((dumps v).length + 1)).1 v rest
    (Nat.le_trans (fnVal_le_len v) (Nat.le_succ _)) hsafe

/-- `json.loads (json.dumps v) = v` on the modelled JSON fragment. -/
theorem json_loads_dumps (v : JVal) : json_loads (dumps v) = some v := by
  unfold json_loads
  obtain ⟨c, t, hct, hws, -, -⟩ := dumps_head_spec v
  rw [show skipWs (dumps v) = dumps v by rw [hct]; exact skipWs_not_ws _ hws]
  rw [show dumps v = dumps v ++ [] by simp]
  have hb : fnVal v ≤ (dumps v ++ []).length + 1 := by
    have := fnVal_le_len v
    simp only [List.append_nil]
    omega
  have H := (parse_dumps_all ((dumps v ++ []).length + 1)).1 v [] hb rfl
  rw [H]
  simp [skipWs]

/-! ### Serialized output is printable ASCII, hence terminator-free -/

theorem hexChar_printable {d : Nat} (h : d < 16) :
    32 ≤ (hexChar d).toNat ∧ (hexChar d).toNat ≤ 126 := by
  unfold hexChar
  by_cases h10 : d < 10
  · rw [if_pos h10, char_toNat_valid _ (Or.inl (by omega))]
    omega
  · rw [if_neg h10, char_toNat_valid _ (Or.inl (by omega))]
    omega

theorem toHex4_printable (n : Nat) :
    ∀ x ∈ toHex4 n, 32 ≤ x.toNat ∧ x.toNat ≤ 126 := by
  intro x hx
  simp only [toHex4, List.mem_cons, List.not_mem_nil, or_false] at hx
  rcases hx with h | h | h | h <;> subst h <;> exact hexChar_printable (by omega)

theorem escapeChar_printable (c : Char) :
    ∀ x ∈ escapeChar c, 32 ≤ x.toNat ∧ x.toNat ≤ 126 := by
  unfold escapeChar
  split_ifs with h1 h2 h3 h4 h5 h6 h7 h8 h9 <;> intro x hx
  · simp only [List.mem_cons, List.not_mem_nil, or_false] at hx
    rcases hx with h | h <;> subst h <;> decide
  · simp only [List.mem_cons, List.not_mem_nil, or_false] at hx
    rcases hx with h | h <;> subst h <;> decide
  · simp only [List.mem_cons, List.not_mem_nil, or_false] at hx
    rcases hx with h | h <;> subst h <;> decide
  · simp only [List.mem_cons, List.not_mem_nil, or_false] at hx
    rcases hx with h | h <;> subst h <;> decide
  · simp only [List.mem_cons, List.not_mem_nil, or_false] at hx
    rcases hx with h | h <;> subst h <;> decide
  · simp only [List.mem_cons, List.not_mem_nil, or_false] at hx
    rcases hx with h | h <;> subst h <;> decide
  · simp only [List.mem_cons, List.not_mem_nil, or_false] at hx
    rcases hx with h | h <;> subst h <;> decide
  · simp only [List.mem_cons] at hx
    rcases hx with h | h | h
    · subst h; decide
    · subst h; decide
    · exact toHex4_printable _ x h
  · simp only [List.mem_append, List.mem_cons] at hx
    rcases hx with (h | h | h) | (h | h | h)
    · subst h; decide
    · subst h; decide
    · exact toHex4_printable _ x h
    · subst h; decide
    · subst h; decide
    · exact toHex4_printable _ x h
  · simp only [List.mem_singleton] at hx
    subst hx
    push_neg at h8
    omega

theorem escapeStr_printable : ∀ s : List Char, ∀ x ∈ escapeStr s,
    32 ≤ x.toNat ∧ x.toNat ≤ 126 := by
  intro s
  induction s with
  | nil => intro x hx; simp [escapeStr] at hx
  | cons c s' ih =>
    intro x hx
    simp only [escapeStr, List.mem_append] at hx
    rcases hx with h | h
    · exact escapeChar_printable c x h
    · exact ih x h

theorem natToChars_printable (n : Nat) : ∀ x ∈ natToChars n,
    32 ≤ x.toNat ∧ x.toNat ≤ 126 := by
  intro x hx
  have := (isDigitChar_iff x).1 (natToChars_digits n x hx)
  omega

mutual
theorem dumps_printable (v : JVal) : ∀ x ∈ dumps v, 32 ≤ x.toNat ∧ x.toNat ≤ 126 := by
  match v with
  | .null =>
    intro x hx
    simp only [show dumps .null = ['n', 'u', 'l', 'l'] from rfl, List.mem_cons,
      List.not_mem_nil, or_false] at hx
    rcases hx with h | h | h | h <;> subst h <;> decide
  | .bool true =>
    intro x hx
    simp only [show dumps (.bool true) = ['t', 'r', 'u', 'e'] from rfl, List.mem_cons,
      List.not_mem_nil, or_false] at hx
    rcases hx with h | h | h | h <;> subst h <;> decide
  | .bool false =>
    intro x hx
    simp only [show dumps (.bool false) = ['f', 'a', 'l', 's', 'e'] from rfl, List.mem_cons,
      List.not_mem_nil, or_false] at hx
    rcases hx with h | h | h | h | h <;> subst h <;> decide
  | .int (.ofNat m) => exact natToChars_printable m
  | .int (.negSucc m) =>
    intro x hx
    simp only [show dumps (.int (.negSucc m)) = '-' :: natToChars (m + 1) from rfl,
      List.mem_cons] at hx
    rcases hx with h | h
    · subst h; decide
    · exact natToChars_printable (m + 1) x h
  | .str s =>
    intro x hx
    rw [show dumps (.str s) = '"' :: (escapeStr s ++ ['"']) from rfl] at hx
    rcases List.mem_cons.1 hx with h | h
    · subst h; decide
    · rcases List.mem_append.1 h with h2 | h2
      · exact escapeStr_printable s x h2
      · rw [List.mem_singleton] at h2; subst h2; decide
  | .arr xs =>
    intro x hx
    rw [show dumps (.arr xs) = '[' :: (dumpsItems xs ++ [']']) from rfl] at hx
    rcases List.mem_cons.1 hx with h | h
    · subst h; decide
    · rcases List.mem_append.1 h with h2 | h2
      · exact dumpsItems_printable xs x h2
      · rw [List.mem_singleton] at h2; subst h2; decide
  | .obj ms =>
    intro x hx
    rw [show dumps (.obj ms) = '{' :: (dumpsMembers ms ++ ['}']) from rfl] at hx
    rcases List.mem_cons.1 hx with h | h
    · subst h; decide
    · rcases List.mem_append.1 h with h2 | h2
      · exact dumpsMembers_printable ms x h2
      · rw [List.mem_singleton] at h2; subst h2; decide
termination_by sizeOf v

theorem dumpsItems_printable (xs : List JVal) : ∀ x ∈ dumpsItems xs,
    32 ≤ x.toNat ∧ x.toNat ≤ 126 := by
  match xs with
  | [] => intro x hx; simp [show dumpsItems [] = [] from rfl] at hx
  | [y] =>
    intro x hx
    exact dumps_printable y x (by rwa [show dumpsItems [y] = dumps y from rfl] at hx)
  | y :: z :: t =>
    intro x hx
    rw [show dumpsItems (y :: z :: t) = dumps y ++ ',' :: ' ' :: dumpsItems (z :: t)
      from rfl] at hx
    rcases List.mem_append.1 hx with h | h
    · exact dumps_printable y x h
    · rcases List.mem_cons.1 h with h2 | h2
      · subst h2; decide
      · rcases List.mem_cons.1 h2 with h3 | h3
        · subst h3; decide
        · exact dumpsItems_printable (z :: t) x h3
termination_by sizeOf xs

theorem dumpsMembers_printable (ms : List (List Char × JVal)) : ∀ x ∈ dumpsMembers ms,
    32 ≤ x.toNat ∧ x.toNat ≤ 126 := by
  match ms with
  | [] => intro x hx; simp [show dumpsMembers [] = [] from rfl] at hx
  | [(k, v)] =>
    intro x hx
    rw [show dumpsMembers [(k, v)] = '"' :: (escapeStr k ++ '"' :: ':' :: ' ' :: dumps v)
      from rfl] at hx
    rcases List.mem_cons.1 hx with h | h
    · subst h; decide
    · rcases List.mem_append.1 h with h2 | h2
      · exact escapeStr_printable k x h2
      · rcases List.mem_cons.1 h2 with h3 | h3
        · subst h3; decide
        · rcases List.mem_cons.1 h3 with h4 | h4
          · subst h4; decide
          · rcases List.mem_cons.1 h4 with h5 | h5
            · subst h5; decide
            · exact dumps_printable v x h5
  | (k, v) :: m2 :: t =>
    intro x hx
    rw [show dumpsMembers ((k, v) :: m2 :: t) =
      ('"' :: (escapeStr k ++ '"' :: ':' :: ' ' :: dumps v)) ++
        ',' :: ' ' :: dumpsMembers (m2 :: t) from rfl] at hx
    rcases List.mem_append.1 hx with h | h
    · rcases List.mem_cons.1 h with h2 | h2
      · subst h2; decide
      · rcases List.mem_append.1 h2 with h3 | h3
        · exact escapeStr_printable k x h3
        · rcases List.mem_cons.1 h3 with h4 | h4
          · subst h4; decide
          · rcases List.mem_cons.1 h4 with h5 | h5
            · subst h5; decide
            · rcases List.mem_cons.1 h5 with h6 | h6
              · subst h6; decide
              · exact dumps_printable v x h6
    · rcases List.mem_cons.1 h with h2 | h2
      · subst h2; decide
      · rcases List.mem_cons.1 h2 with h3 | h3
        · subst h3; decide
        · exact dumpsMembers_printable (m2 :: t) x h3
termination_by sizeOf ms
end

/-! ### The frame layer: terminator-delimited messages -/

/-- The frame terminator `0x03`, written `"\x03"` in the source. -/
def termChar : Char := Char.ofNat 3

theorem dumps_no_term (v : JVal) : ∀ x ∈ dumps v, x ≠ termChar := by
  intro x hx he
  have h := dumps_printable v x hx
  rw [he] at h
  exact absurd h (by decide)

/-- `ClientConnection.send` framing: `json.dumps(data) + "\x03"`. -/
def encode (v : JVal) : List Char := dumps v ++ [termChar]

/-- Python's `data.split('\x03')`: the segments between terminators, always
one more segment than terminators (so never empty). -/
def splitTerm : List Char → List (List Char)
  | [] => [[]]
  | c :: rest =>
    if c = termChar then [] :: splitTerm rest
    else
      match splitTerm rest with
      | [] => [[c]]
      | h :: t => (c :: h) :: t

theorem splitTerm_ne_nil : ∀ l : List Char, splitTerm l ≠ [] := by
  intro l
  cases l with
  | nil => simp [splitTerm]
  | cons c rest =>
    unfold splitTerm
    by_cases hc : c = termChar
    · rw [if_pos hc]; simp
    · rw [if_neg hc]
      rcases hq : splitTerm rest with _ | ⟨h, t⟩ <;> simp

/-- One `ClientConnection.process_received` framing step:
`requests = data.split('\x03'); requests[0] = self.partial_data + requests[0];
self.partial_data = requests.pop()`.  Returns the complete frames and the new
partial buffer. -/
def feedChunk (pending data : List Char) : List (List Char) × List Char :=
  match splitTerm data with
  | [] => ([], pending)
  | h :: t =>
    let segs := (pending ++ h) :: t
    (segs.dropLast, segs.getLastD [])

/-- Feeding several received chunks in sequence through the partial-data
buffer, collecting all complete frames in order. -/
def feedAll : List Char → List (List (Char)) → List (List Char) × List Char
  | pending, [] => ([], pending)
  | pending, c :: cs =>
    let fr := feedChunk pending c
    let frs := feedAll fr.2 cs
    (fr.1 ++ frs.1, frs.2)

/-- Character-by-character description of one framing step. -/
def stepChar (s : List (List Char) × List Char) (c : Char) : List (List Char) × List Char :=
  if c = termChar then (s.1 ++ [s.2], []) else (s.1, s.2 ++ [c])

theorem foldl_stepChar_prefix (d : List Char) : ∀ (F0 F : List (List Char)) (cur : List Char),
    List.foldl stepChar (F0 ++ F, cur) d =
      (F0 ++ (List.foldl stepChar (F, cur) d).1, (List.foldl stepChar (F, cur) d).2) := by
  induction d with
  | nil => intro F0 F cur; simp
  | cons c dd ih =>
    intro F0 F cur
    simp only [List.foldl_cons]
    by_cases hc : c = termChar
    · rw [show stepChar (F0 ++ F, cur) c = (F0 ++ (F ++ [cur]), []) by
        simp [stepChar, hc]]
      rw [show stepChar (F, cur) c = (F ++ [cur], []) by simp [stepChar, hc]]
      exact ih F0 (F ++ [cur]) []
    · rw [show stepChar (F0 ++ F, cur) c = (F0 ++ F, cur ++ [c]) by simp [stepChar, hc]]
      rw [show stepChar (F, cur) c = (F, cur ++ [c]) by simp [stepChar, hc]]
      exact ih F0 F (cur ++ [c])

theorem feedChunk_eq_foldl : ∀ (data pending : List Char),
    feedChunk pending data = List.foldl stepChar ([], pending) data := by
  intro data
  induction data with
  | nil => intro pending; simp [feedChunk, splitTerm]
  | cons c d ih =>
    intro pending
    by_cases hc : c = termChar
    · obtain ⟨h, t, hs⟩ : ∃ h t, splitTerm d = h :: t := by
        rcases hq : splitTerm d with _ | ⟨h, t⟩
        · exact absurd hq (splitTerm_ne_nil d)
        · exact ⟨h, t, rfl⟩
      have hsp : splitTerm (c :: d) = [] :: h :: t := by
        unfold splitTerm; rw [if_pos hc, hs]
      have lhs_eq : feedChunk pending (c :: d) =
          (pending :: (h :: t).dropLast, (h :: t).getLastD []) := by
        unfold feedChunk
        rw [hsp]
        simp [List.getLastD_cons]
      have inner : feedChunk [] d = ((h :: t).dropLast, (h :: t).getLastD []) := by
        unfold feedChunk
        rw [hs]
        simp [List.getLastD_cons]
      rw [lhs_eq, List.foldl_cons,
        show stepChar ([], pending) c = ([pending], []) by simp [stepChar, hc],
        show ([pending] : List (List Char)) = [pending] ++ [] from rfl,
        foldl_stepChar_prefix d [pending] [] [], ← ih []]
      rw [inner]
      simp
    · obtain ⟨h, t, hs⟩ : ∃ h t, splitTerm d = h :: t := by
        rcases hq : splitTerm d with _ | ⟨h, t⟩
        · exact absurd hq (splitTerm_ne_nil d)
        · exact ⟨h, t, rfl⟩
      have hsp : splitTerm (c :: d) = (c :: h) :: t := by
        unfold splitTerm; rw [if_neg hc, hs]
      have lhs_eq : feedChunk pending (c :: d) = feedChunk (pending ++ [c]) d := by
        unfold feedChunk
        rw [hsp, hs]
        simp
      rw [lhs_eq, List.foldl_cons,
        show stepChar ([], pending) c = ([], pending ++ [c]) by simp [stepChar, hc]]
      exact ih (pending ++ [c])

/-- Chunk-boundary invariance: feeding any sequence of chunks through the
partial-data buffer produces exactly the frames of the concatenated stream. -/
theorem feedAll_eq_join : ∀ (chunks : List (List Char)) (pending : List Char),
    feedAll pending chunks = feedChunk pending chunks.flatten := by
  intro chunks
  induction chunks with
  | nil =>
    intro pending
    rw [show List.flatten ([] : List (List Char)) = [] from rfl]
    simp [feedAll, feedChunk, splitTerm]
  | cons ch rest ih =>
    intro pending
    rw [show feedAll pending (ch :: rest) =
      ((feedChunk pending ch).1 ++ (feedAll (feedChunk pending ch).2 rest).1,
        (feedAll (feedChunk pending ch).2 rest).2) from rfl,
      ih, show List.flatten (ch :: rest) = ch ++ rest.flatten from rfl,
      feedChunk_eq_foldl (ch ++ rest.flatten) pending, List.foldl_append,
      feedChunk_eq_foldl ch pending, feedChunk_eq_foldl rest.flatten]
    set A := List.foldl stepChar ([], pending) ch with hA
    rw [show A = (A.1 ++ [], A.2) by simp, foldl_stepChar_prefix]
    simp

theorem splitTerm_term_cons (b : List Char) : splitTerm (termChar :: b) = [] :: splitTerm b := by
  rw [show splitTerm (termChar :: b) =
    (if termChar = termChar then [] :: splitTerm b
     else match splitTerm b with
       | [] => [[termChar]]
       | h :: t => (termChar :: h) :: t) from rfl, if_pos rfl]

theorem splitTerm_append_termfree : ∀ (a b : List Char), (∀ x ∈ a, x ≠ termChar) →
    splitTerm (a ++ termChar :: b) = a :: splitTerm b := by
  intro a
  induction a with
  | nil => intro b _; exact splitTerm_term_cons b
  | cons c a' ih =>
    intro b hfree
    have hc : ¬ c = termChar := hfree c (by simp)
    rw [show (c :: a') ++ termChar :: b = c :: (a' ++ termChar :: b) from rfl]
    rw [show splitTerm (c :: (a' ++ termChar :: b)) =
      (if c = termChar then [] :: splitTerm (a' ++ termChar :: b)
       else match splitTerm (a' ++ termChar :: b) with
         | [] => [[c]]
         | h :: t => (c :: h) :: t) from rfl, if_neg hc,
      ih b (fun x hx => hfree x (by simp [hx]))]

/-- Frames and final partial buffer of the stream holding exactly the two
encoded values `v1`, `v2`. -/
theorem feedChunk_two_frames (v1 v2 : JVal) :
    feedChunk [] (encode v1 ++ encode v2) = ([dumps v1, dumps v2], []) := by
  have h2 : splitTerm (dumps v2 ++ termChar :: []) = [dumps v2, []] := by
    rw [splitTerm_append_termfree (dumps v2) [] (dumps_no_term v2)]
    rfl
  have h1 : splitTerm (encode v1 ++ encode v2) = [dumps v1, dumps v2, []] := by
    rw [show encode v1 ++ encode v2 = dumps v1 ++ termChar :: (dumps v2 ++ termChar :: []) by
      unfold encode; simp]
    rw [splitTerm_append_termfree (dumps v1) _ (dumps_no_term v1), h2]
  unfold feedChunk
  rw [h1]
  simp [List.getLastD_cons]

/-- The inbound half of the codec: frames extracted by the split-on-terminator
buffer, each decoded with `json.loads`, plus the retained partial data. -/
def decodeChunks (chunks : List (List Char)) : List (Option JVal) × List Char :=
  ((feedAll [] chunks).1.map json_loads, (feedAll [] chunks).2)

/-! ### WebRequest and request dispatch (`WebRequest`, `WebHooks`,
`ClientConnection._process_request`) -/

/-- Last-wins lookup among a JSON object's members, as the Python dict built
by `json.loads` resolves duplicate keys. -/
def jlookup : List (List Char × JVal) → List Char → Option JVal
  | [], _ => none
  | (k, v) :: rest, key =>
    match jlookup rest key with
    | some w => some w
    | none => if k = key then some v else none

/-- `WebRequest`: the decoded request with its (at most one) response slot. -/
structure WebRequest where
  client_uid : Nat
  id : JVal
  path : JVal
  args : JVal
  response : Option JVal

/-- `WebRequest.__init__`: reads exactly the keys `id`, `path` and `args` of
the decoded dict.  A missing key raises `KeyError` and a non-dict raises a
`TypeError`; `process_received` catches either and drops the frame, which
`none` models. -/
def WebRequest.ofJson (client_uid : Nat) (j : JVal) : Option WebRequest :=
  match j with
  | .obj ms =>
    match jlookup ms (chars ("id")), jlookup ms (chars ("path")),
        jlookup ms (chars ("args")) with
    | some i, some p, some a => some ⟨client_uid, i, p, a, none⟩
    | _, _, _ => none
  | _ => none

/-- `WebRequestError.to_dict`. -/
def errDict (msg : List Char) : JVal :=
  .obj [(chars ("error"), .str (chars ("WebRequestError"))),
        (chars ("message"), .str msg)]

/-- `WebRequest.set_error`: unconditionally stores the error dict. -/
def WebRequest.set_error (r : WebRequest) (msg : List Char) : WebRequest :=
  { r with response := some (errDict msg) }

/-- `WebRequest.send`: raises `WebRequestError` if a response is already set,
otherwise stores the data. -/
def WebRequest.send (r : WebRequest) (data : JVal) : Except (List Char) WebRequest :=
  if r.response.isSome then .error (chars ("Multiple calls to send not allowed"))
  else .ok { r with response := some data }

/-- `WebRequest.finish`: a request finished with neither a value nor an error
defaults to the literal `"ok"`, wrapped as `request_id`/`response`. -/
def WebRequest.finish (r : WebRequest) : JVal :=
  .obj [(chars ("request_id"), r.id),
        (chars ("response"), match r.response with
          | none => .str (chars ("ok"))
          | some v => v)]

/-- How a handler invocation ended, classifying the exception (if any) as
`_process_request`'s `try`/`except` clauses do. -/
inductive HandlerOutcome where
  | normal
  | commandError (msg : List Char)
  | unexpectedError (msg : List Char)

/-- A handler may mutate the request (e.g. via `send`) before returning or
raising. -/
def Handler : Type := WebRequest → WebRequest × HandlerOutcome

/-- The `WebHooks._endpoints` dict (unique keys, enforced by
`register_endpoint`). -/
def lookupByName : List (List Char × Handler) → List Char → Option Handler
  | [], _ => none
  | (k, h) :: rest, p => if k = p then some h else lookupByName rest p

/-- `self._endpoints.get(path, None)` applied to the request's decoded `path`
value.  Only a string path can equal a registered path string, so the other
hashable decoded values (`null`, a bool, a number) miss and return the `None`
default; a decoded JSON array or object is an unhashable dict key, on which
Python 2's `dict.get` raises `TypeError` (whose `message` is
`unhashable type: 'list'` resp. `unhashable type: 'dict'`) instead of
returning the default. -/
def lookupEndpoint (eps : List (List Char × Handler)) (p : JVal) :
    Except (List Char) (Option Handler) :=
  match p with
  | .str s => .ok (lookupByName eps s)
  | .arr _ => .error (chars ("unhashable type: 'list'"))
  | .obj _ => .error (chars ("unhashable type: 'dict'"))
  | _ => .ok none

/-- The message of the `WebRequestError` raised by `WebHooks.get_callback` for
an unregistered path (string paths, the only kind that can be registered, are
interpolated exactly; other JSON values stand in via their serialization). -/
def noCallbackMsg (path : JVal) : List Char :=
  chars ("webhooks: No registered callback for path '") ++
    (match path with
      | .str s => s
      | p => dumps p) ++ chars ("'")

/-- `ClientConnection._process_request`: look up the callback — a lookup miss
raises `WebRequestError`, caught by the `homing.CommandError` clause, while an
unhashable path makes `dict.get` itself raise `TypeError`, which only the
`except Exception` clause catches — then run the handler; a `CommandError` is
converted into an error response only, while any other exception (the
`TypeError` included) sets an error response (`e.message`) AND invokes
`printer.invoke_shutdown` once.  Returns the request after dispatch together
with the number of shutdown invocations. -/
def process_request (eps : List (List Char × Handler)) (wr : WebRequest) :
    WebRequest × Nat :=
  match lookupEndpoint eps wr.path with
  | .error m => (wr.set_error m, 1)
  | .ok none => (wr.set_error (noCallbackMsg wr.path), 0)
  | .ok (some f) =>
    match f wr with
    | (wr2, .normal) => (wr2, 0)
    | (wr2, .commandError m) => (wr2.set_error m, 0)
    | (wr2, .unexpectedError m) => (wr2.set_error m, 1)

/-- The bytes `_process_request` places on the wire for one request:
`self.send({'method': "response", 'params': web_request.finish()})`, i.e. the
serialized envelope plus the frame terminator, and the shutdown count. -/
def process_request_wire (eps : List (List Char × Handler)) (wr : WebRequest) :
    List Char × Nat :=
  (encode (.obj [(chars ("method"), .str (chars ("response"))),
    (chars ("params"), (process_request eps wr).1.finish)]),
   (process_request eps wr).2)

/-- Inbound pipeline for one complete frame (`process_received` body): JSON
decode and `WebRequest` construction — either failure is logged and the frame
dropped with no reply — then dispatch. -/
def handle_frame (eps : List (List Char × Handler)) (uid : Nat) (frame : List Char) :
    Option (List Char × Nat) :=
  match json_loads frame with
  | none => none
  | some j =>
    match WebRequest.ofJson uid j with
    | none => none
    | some wr => some (process_request_wire eps wr)

/-- `WebHooks._handle_list_endpoints`: sends `{'endpoints': keys}`; were
`send` to raise, the `WebRequestError` would propagate as a `CommandError`. -/
def handle_list_endpoints (names : List (List Char)) : Handler :=
  fun wr =>
    match wr.send (.obj [(chars ("endpoints"), .arr (names.map .str))]) with
    | .ok wr2 => (wr2, .normal)
    | .error m => (wr, .commandError m)

/-- Top-level member of the JSON object serialized in a wire message (the
terminator stripped before decoding). -/
def jsonTopKey (w : List Char) (key : List Char) : Option JVal :=
  match json_loads w.dropLast with
  | some (.obj ms) => jlookup ms key
  | _ => none

/-! ### ClientConnection outbound state (`send` / `_do_send`) -/

/-- Outbound half of a `ClientConnection`: the send buffer, the
`is_sending_data` flag, how many `_do_send` callbacks are registered with the
reactor but have not run, and whether the connection was closed. -/
structure ConnState where
  send_buffer : List Char
  is_sending_data : Bool
  pending_callbacks : Nat
  closed : Bool

/-- `ClientConnection.send`: append the framed message to the buffer; when no
flush is in progress, mark one in progress and register exactly one `_do_send`
callback. -/
def conn_send (s : ConnState) (data : JVal) : ConnState :=
  let s2 := { s with send_buffer := s.send_buffer ++ encode data }
  if s2.is_sending_data then s2
  else { s2 with is_sending_data := true, pending_callbacks := s2.pending_callbacks + 1 }

/-- One `sock.send` attempt's outcome. -/
inductive SendEv where
  | sent (n : Nat)
  | errRetry
  | errFatal

/-- The `while self.send_buffer` loop of `_do_send`, driven by a sequence of
socket outcomes: a positive send drops the sent prefix and resets the retry
budget to 10; `EBADF`/`EPIPE`, an exhausted retry budget, or a zero-length
send close the connection and break; other errors consume one retry (after a
scheduled pause).  `none` when the outcome sequence ends while the loop would
continue.  Returns the remaining buffer and whether the close path ran. -/
def do_send_loop : List SendEv → Nat → List Char → Option (List Char × Bool)
  | _, _, [] => some ([], false)
  | [], _, _ :: _ => none
  | ev :: evs, retries, b :: buf =>
    match ev with
    | .sent n =>
      if 0 < n then do_send_loop evs 10 ((b :: buf).drop n) else some (b :: buf, true)
    | .errFatal => some (b :: buf, true)
    | .errRetry =>
      if retries = 0 then some (b :: buf, true)
      else do_send_loop evs (retries - 1) (b :: buf)

/-- `ClientConnection._do_send`: run the loop with a fresh retry budget and,
in every exit path, clear `is_sending_data`; the callback registration is
consumed. -/
def do_send (evs : List SendEv) (s : ConnState) : Option ConnState :=
  match do_send_loop evs 10 s.send_buffer with
  | none => none
  | some (buf, cl) =>
    some ({ s with
      send_buffer := buf
      is_sending_data := false
      pending_callbacks := s.pending_callbacks - 1
      closed := s.closed || cl })

/-! ### StatusHandler (the subscription engine) -/

/-- The reactor timer states the claims touch: `reactor.NEVER` (stopped) and
`reactor.NOW` (fire immediately).  The periodic reschedule to
`eventtime + SUBSCRIPTION_REFRESH_TIME` is not modelled (real time). -/
inductive Waketime where
  | NEVER
  | NOW
deriving DecidableEq

/-- Python dict `.get(key, None)` on an association list with unique keys. -/
def getEntry {κ α : Type} [DecidableEq κ] : List (κ × α) → κ → Option α
  | [], _ => none
  | (k, v) :: rest, key => if k = key then some v else getEntry rest key

/-- Python dict assignment `m[k] = v`. -/
def setEntry {κ α : Type} [DecidableEq κ] : List (κ × α) → κ → α → List (κ × α)
  | [], k, v => [(k, v)]
  | (k2, v2) :: rest, k, v =>
    if k2 = k then (k, v) :: rest else (k2, v2) :: setEntry rest k v

/-- `StatusHandler` state: readiness, the lazily-started subscription timer,
the catalog `available_objects` (object name → status field names), the global
subscription table (field set per object, `∅` meaning the all-fields
sentinel `[]`), and the per-connection push templates `clients`.  Python
stores field collections as lists whose order is hash-dependent; the model
keeps the underlying sets. -/
structure SHState where
  ready : Bool
  timer_started : Bool
  timer_waketime : Waketime
  available_objects : List (String × Finset String)
  subscriptions : List (String × Finset String)
  clients : List (Nat × JVal)

/-- The per-object merge of a validated incoming field set into an existing
entry (webhooks.py lines 443-449): if either side is the all-fields sentinel
the result is the sentinel, otherwise the set union. -/
def merge_items (existing_items req_items : Finset String) : Finset String :=
  if req_items = ∅ ∨ existing_items = ∅ then ∅ else req_items ∪ existing_items

/-- One iteration of `add_subscripton`'s loop (lines 422-451): skip an object
missing from the catalog; for a non-empty request drop field names not in the
catalog entry and skip the object entirely if nothing valid remains; merge the
survivor into the subscription table. -/
def add_sub_entry (avail : List (String × Finset String))
    (subs : List (String × Finset String)) (obj_name : String)
    (req_items : Finset String) : List (String × Finset String) :=
  match getEntry avail obj_name with
  | none => subs
  | some avail_items =>
    let req2 :=
      if req_items ≠ ∅ then
        let invalid_items := req_items \ avail_items
        if invalid_items ≠ ∅ then req_items \ invalid_items else req_items
      else req_items
    if req_items ≠ ∅ ∧ req2 = ∅ then subs
    else
      match getEntry subs obj_name with
      | some existing_items => setEntry subs obj_name (merge_items existing_items req2)
      | none => setEntry subs obj_name req2

/-- The whole subscription-request loop over the request's entries. -/
def addEntries (avail : List (String × Finset String))
    (subs : List (String × Finset String))
    (req : List (String × Finset String)) : List (String × Finset String) :=
  req.foldl (fun s e => add_sub_entry avail s e.1 e.2) subs

/-- `StatusHandler.add_subscripton` (lines 419-454): an empty request returns
immediately; otherwise every entry is merged and, if the subscription timer
was never started, it is armed to fire immediately. -/
def add_subscripton (st : SHState) (new_sub : List (String × Finset String)) : SHState :=
  if new_sub.isEmpty then st
  else
    let st2 := { st with subscriptions := addEntries st.available_objects st.subscriptions new_sub }
    if st2.timer_started then st2
    else { st2 with timer_waketime := .NOW, timer_started := true }

/-- `StatusHandler._handle_restart` (lines 363-365): mark not ready and stop
the subscription timer.  (`timer_started` is left `true` if it was.) -/
def handle_restart (st : SHState) : SHState :=
  { st with ready := false, timer_waketime := .NEVER }

/-- `StatusHandler._handle_list_subscription_request` (lines 416-417): a copy
of the current subscription table. -/
def handle_list_subscription_request (st : SHState) : List (String × Finset String) :=
  st.subscriptions

/-- `StatusHandler._handle_subscription_request` (lines 406-414).  In the
source the client's `response_template` travels inside the same argument dict
under the reserved key `'response_template'`, which the subscription loop then
skips because that key never names a catalog object; the model carries the
template as a separate optional component and re-inserts a stand-in entry, so
the emptiness test `if not args` and the loop see the same key set. -/
def handle_subscription_request (st : SHState) (conn_uid : Nat)
    (args : List (String × Finset String)) (tmpl : Option JVal) :
    SHState × Option String :=
  let full_args := args ++ (match tmpl with
    | some _ => [((("response_template" : String)), (∅ : Finset String))]
    | none => [])
  if full_args.isEmpty then (st, some (("Invalid argument" : String)))
  else
    let st2 := add_subscripton st full_args
    ({ st2 with clients := setEntry st2.clients conn_uid (tmpl.getD (.obj [])) }, none)

/-! ### Claim theorems -/

/-- C1 (amended): For every dispatched request, a handler that raises the
recoverable domain command error (`homing.CommandError`, which includes
`WebRequestError`) leaves the request finished with a structured error
response and does not invoke the host shutdown procedure; a handler that
raises any other exception also finishes the request with an error response
AND invokes the host shutdown procedure exactly once; an unregistered path on
which the endpoint lookup misses normally (any hashable decoded value — a
string not in the registry, `null`, a bool or a number) falls in the
recoverable class (error response, no shutdown); but a request whose decoded
`path` is a JSON array or object makes `dict.get` itself raise `TypeError`,
which only the `except Exception` clause catches: error response AND exactly
one shutdown invocation. -/
theorem C1_fatal_vs_recoverable (eps : List (List Char × Handler)) (wr : WebRequest) :
    (∀ (f : Handler) (wr2 : WebRequest) (m : List Char),
      lookupEndpoint eps wr.path = .ok (some f) → f wr = (wr2, .commandError m) →
      (process_request eps wr).2 = 0 ∧
      (process_request eps wr).1.response = some (errDict m)) ∧
    (∀ (f : Handler) (wr2 : WebRequest) (m : List Char),
      lookupEndpoint eps wr.path = .ok (some f) → f wr = (wr2, .unexpectedError m) →
      (process_request eps wr).2 = 1 ∧
      (process_request eps wr).1.response = some (errDict m)) ∧
    (lookupEndpoint eps wr.path = .ok none →
      (process_request eps wr).2 = 0 ∧
      (process_request eps wr).1.response = some (errDict (noCallbackMsg wr.path))) ∧
    (∀ m : List Char, lookupEndpoint eps wr.path = .error m →
      (process_request eps wr).2 = 1 ∧
      (process_request eps wr).1.response = some (errDict m)) := by
  refine ⟨?_, ?_, ?_, ?_⟩
  · intro f wr2 m hf hout
    simp only [process_request, hf, hout]
    exact ⟨trivial, rfl⟩
  · intro f wr2 m hf hout
    simp only [process_request, hf, hout]
    exact ⟨trivial, rfl⟩
  · intro hf
    simp only [process_request, hf]
    exact ⟨trivial, rfl⟩
  · intro m hf
    simp only [process_request, hf]
    exact ⟨trivial, rfl⟩

def wrOf (p : String) : WebRequest := ⟨1, .int 1, .str (chars (p)), .obj [], none⟩

def epsFix : List (List Char × Handler) :=
  [(chars ("cmd"), fun wr => (wr, .commandError (chars ("oops")))),
   (chars ("bad"), fun wr => (wr, .unexpectedError (chars ("crash"))))]

theorem C1_witness :
    ((process_request epsFix (wrOf ("cmd"))).2 = 0 ∧
      (process_request epsFix (wrOf ("cmd"))).1.response =
        some (errDict (chars ("oops")))) ∧
    ((process_request epsFix (wrOf ("bad"))).2 = 1 ∧
      (process_request epsFix (wrOf ("bad"))).1.response =
        some (errDict (chars ("crash")))) ∧
    ((process_request epsFix (wrOf ("gone"))).2 = 0 ∧
      (process_request epsFix (wrOf ("gone"))).1.response =
        some (errDict (noCallbackMsg (wrOf ("gone")).path))) ∧
    ((process_request epsFix { wrOf ("cmd") with path := .obj [] }).2 = 1 ∧
      (process_request epsFix { wrOf ("cmd") with path := .obj [] }).1.response =
        some (errDict (chars ("unhashable type: 'dict'")))) :=
  ⟨(C1_fatal_vs_recoverable epsFix (wrOf ("cmd"))).1 _ (wrOf ("cmd")) _ rfl rfl,
   (C1_fatal_vs_recoverable epsFix (wrOf ("bad"))).2.1 _ (wrOf ("bad")) _ rfl rfl,
   (C1_fatal_vs_recoverable epsFix (wrOf ("gone"))).2.2.1 rfl,
   (C1_fatal_vs_recoverable epsFix { wrOf ("cmd") with path := .obj [] }).2.2.2
     (chars ("unhashable type: 'dict'")) rfl⟩

def c1wr : WebRequest :=
  { client_uid := 1, id := .int 1, path := .arr [], args := .obj [], response := none }

/-- C1 counterexample: the well-formed request
`\x7b"id": 1, "path": [], "args": \x7b\x7d\x7d` has an unregistered path, yet
dispatching it invokes the shutdown procedure once and sets the `TypeError`
message as the error response — `self._endpoints.get(path, None)` raises
`TypeError: unhashable type: 'list'` on the decoded array, and the
`except Exception` clause escalates it — contradicting the claim that every
unregistered path is in the recoverable class (error response, no
shutdown). -/
theorem C1_counterexample :
    (process_request epsFix c1wr).2 = 1 ∧
    (process_request epsFix c1wr).1.response =
      some (errDict (chars ("unhashable type: 'list'"))) := ⟨rfl, rfl⟩

/-- C6: Every request is finished with exactly one response value — the
explicitly sent success value, an explicitly set error dict, or, when neither
was set, the literal string `"ok"` — and calling `send` a second time on the
same request raises an error while the first value is kept. -/
theorem C6_exactly_one_response :
    (∀ r : WebRequest, r.response = none →
      r.finish = .obj [(chars ("request_id"), r.id),
        (chars ("response"), .str (chars ("ok")))]) ∧
    (∀ (r : WebRequest) (v : JVal), r.response = some v →
      r.finish = .obj [(chars ("request_id"), r.id), (chars ("response"), v)]) ∧
    (∀ (r : WebRequest) (e : List Char),
      (r.set_error e).finish =
        .obj [(chars ("request_id"), r.id), (chars ("response"), errDict e)]) ∧
    (∀ (r : WebRequest) (v : JVal) (r2 : WebRequest), r.send v = .ok r2 →
      r2.response = some v ∧
      ∀ w : JVal, r2.send w = .error (chars ("Multiple calls to send not allowed"))) := by
  refine ⟨?_, ?_, ?_, ?_⟩
  · intro r h
    unfold WebRequest.finish
    rw [h]
  · intro r v h
    unfold WebRequest.finish
    rw [h]
  · intro r e
    rfl
  · intro r v r2 hok
    unfold WebRequest.send at hok
    by_cases h : r.response.isSome = true
    · rw [if_pos h] at hok
      exact absurd hok (by simp)
    · rw [if_neg h] at hok
      have hr2 : { r with response := some v } = r2 := by
        injection hok
      subst hr2
      refine ⟨rfl, fun w => ?_⟩
      unfold WebRequest.send
      rw [if_pos (show ({ r with response := some v } : WebRequest).response.isSome = true
        from rfl)]

theorem C6_witness :
    ((wrOf ("x")).response = none ∧
      (wrOf ("x")).finish = .obj [(chars ("request_id"), (wrOf ("x")).id),
        (chars ("response"), .str (chars ("ok")))]) ∧
    ((wrOf ("x")).send (.int 5) = .ok { wrOf ("x") with response := some (.int 5) } ∧
      ({ wrOf ("x") with response := some (.int 5) } : WebRequest).response = some (.int 5) ∧
      ∀ w : JVal, ({ wrOf ("x") with response := some (.int 5) } : WebRequest).send w =
        .error (chars ("Multiple calls to send not allowed"))) :=
  ⟨⟨rfl, C6_exactly_one_response.1 (wrOf ("x")) rfl⟩,
   ⟨rfl, C6_exactly_one_response.2.2.2 (wrOf ("x")) (.int 5)
     { wrOf ("x") with response := some (.int 5) } rfl⟩⟩

/-- C9: At most one flush loop is active per connection: enqueuing while the
flush-in-progress flag is set appends to the outbound buffer without
registering a second `_do_send` callback, enqueuing while it is clear sets the
flag and registers exactly one callback, the flush loop clears the flag on
every exit path, and consecutive sends serialize into the buffer in enqueue
order. -/
theorem C9_single_flush_loop :
    (∀ (s : ConnState) (d : JVal), s.is_sending_data = true →
      (conn_send s d).pending_callbacks = s.pending_callbacks ∧
      (conn_send s d).is_sending_data = true ∧
      (conn_send s d).send_buffer = s.send_buffer ++ encode d) ∧
    (∀ (s : ConnState) (d : JVal), s.is_sending_data = false →
      (conn_send s d).pending_callbacks = s.pending_callbacks + 1 ∧
      (conn_send s d).is_sending_data = true ∧
      (conn_send s d).send_buffer = s.send_buffer ++ encode d) ∧
    (∀ (evs : List SendEv) (s s2 : ConnState), do_send evs s = some s2 →
      s2.is_sending_data = false ∧ s2.pending_callbacks = s.pending_callbacks - 1) ∧
    (∀ (s : ConnState) (d1 d2 : JVal),
      (conn_send (conn_send s d1) d2).send_buffer =
        s.send_buffer ++ encode d1 ++ encode d2) := by
  refine ⟨?_, ?_, ?_, ?_⟩
  · intro s d h
    simp only [conn_send]
    rw [if_pos (show s.is_sending_data = true from h)]
    exact ⟨rfl, h, rfl⟩
  · intro s d h
    simp only [conn_send]
    rw [if_neg (show ¬ s.is_sending_data = true by rw [h]; simp)]
    exact ⟨rfl, rfl, rfl⟩
  · intro evs s s2 h
    unfold do_send at h
    cases hq : do_send_loop evs 10 s.send_buffer with
    | none => rw [hq] at h; exact absurd h (by simp)
    | some p =>
      obtain ⟨buf, cl⟩ := p
      rw [hq] at h
      have h2 : ({ s with
          send_buffer := buf
          is_sending_data := false
          pending_callbacks := s.pending_callbacks - 1
          closed := s.closed || cl } : ConnState) = s2 := by
        injection h
      subst h2
      exact ⟨rfl, rfl⟩
  · intro s d1 d2
    simp only [conn_send]
    split_ifs <;> simp

def connFix : ConnState :=
  { send_buffer := [], is_sending_data := false, pending_callbacks := 0, closed := false }

theorem C9_witness :
    (connFix.is_sending_data = false ∧
      (conn_send connFix (.int 1)).pending_callbacks = connFix.pending_callbacks + 1) ∧
    ((conn_send connFix (.int 1)).is_sending_data = true ∧
      (conn_send (conn_send connFix (.int 1)) (.int 2)).pending_callbacks =
        (conn_send connFix (.int 1)).pending_callbacks) ∧
    (∀ s2, do_send [.sent 2, .sent 2] (conn_send connFix (.int 1)) = some s2 →
      s2.is_sending_data = false) :=
  ⟨⟨rfl, ((C9_single_flush_loop).2.1 connFix (.int 1) rfl).1⟩,
   ⟨rfl, ((C9_single_flush_loop).1 (conn_send connFix (.int 1)) (.int 2) rfl).1⟩,
   fun s2 h => ((C9_single_flush_loop).2.2.1 [.sent 2, .sent 2]
     (conn_send connFix (.int 1)) s2 h).1⟩

/-- C10: A subscription request whose overall argument map is empty raises the
recoverable "Invalid argument" web-request error before any state change: the
global subscription table, the per-connection push-template map and the timer
state are all left exactly as they were. -/
theorem C10_empty_args_error_atomic (st : SHState) (conn_uid : Nat)
    (args : List (String × Finset String)) (tmpl : Option JVal)
    (hargs : args = []) (htmpl : tmpl = none) :
    handle_subscription_request st conn_uid args tmpl =
      (st, some (("Invalid argument" : String))) ∧
    (handle_subscription_request st conn_uid args tmpl).1.subscriptions =
      st.subscriptions ∧
    (handle_subscription_request st conn_uid args tmpl).1.clients = st.clients ∧
    (handle_subscription_request st conn_uid args tmpl).1.timer_waketime =
      st.timer_waketime := by
  subst hargs htmpl
  exact ⟨rfl, rfl, rfl, rfl⟩

def shFix : SHState :=
  { ready := true, timer_started := false, timer_waketime := .NEVER,
    available_objects := [((("toolhead" : String)), {("position" : String)})],
    subscriptions := [], clients := [] }

theorem C10_witness :
    handle_subscription_request shFix 7 [] none =
      (shFix, some (("Invalid argument" : String))) ∧
    (handle_subscription_request shFix 7 [] none).1.subscriptions = shFix.subscriptions :=
  ⟨(C10_empty_args_error_atomic shFix 7 [] none rfl rfl).1,
   (C10_empty_args_error_atomic shFix 7 [] none rfl rfl).2.1⟩

theorem feedChunk_one_frame (v : JVal) : feedChunk [] (encode v) = ([dumps v], []) := by
  have h1 : splitTerm (encode v) = [dumps v, []] := by
    rw [show encode v = dumps v ++ termChar :: [] from rfl,
        splitTerm_append_termfree (dumps v) [] (dumps_no_term v)]
    rfl
  unfold feedChunk
  rw [h1]
  simp

/-- C7: Frame-codec round-trip: encoding any JSON-representable value (its
JSON text plus one 0x03 terminator) and decoding the stream yields the
original value with nothing pending; and a stream holding two encoded frames,
split at arbitrary chunk boundaries and fed chunk by chunk through the
partial-data buffer, decodes to the same two values in order with nothing
pending. -/
theorem C7_codec_roundtrip :
    (∀ v : JVal, decodeChunks [encode v] = ([some v], [])) ∧
    (∀ (v1 v2 : JVal) (chunks : List (List Char)),
      chunks.flatten = encode v1 ++ encode v2 →
      decodeChunks chunks = ([some v1, some v2], [])) := by
  constructor
  · intro v
    unfold decodeChunks
    rw [feedAll_eq_join]
    rw [show ([encode v] : List (List Char)).flatten = encode v by simp]
    rw [feedChunk_one_frame]
    simp [json_loads_dumps]
  · intro v1 v2 chunks hch
    unfold decodeChunks
    rw [feedAll_eq_join, hch, feedChunk_two_frames]
    simp [json_loads_dumps]

def c7v1 : JVal := .obj [(chars ("id"), .int 1)]

def c7v2 : JVal := .arr [.null, .bool true, .str (chars ("a"))]

def c7stream : List Char := encode c7v1 ++ encode c7v2

def c7chunks : List (List Char) :=
  [c7stream.take 5, (c7stream.drop 5).take 7, c7stream.drop 12]

theorem C7_witness :
    decodeChunks [encode c7v1] = ([some c7v1], []) ∧
    decodeChunks c7chunks = ([some c7v1, some c7v2], []) :=
  ⟨C7_codec_roundtrip.1 c7v1, C7_codec_roundtrip.2 c7v1 c7v2 c7chunks rfl⟩

theorem getEntry_setEntry_self {κ α : Type} [DecidableEq κ]
    (l : List (κ × α)) (k : κ) (v : α) : getEntry (setEntry l k v) k = some v := by
  induction l with
  | nil => simp [setEntry, getEntry]
  | cons p rest ih =>
    obtain ⟨k2, v2⟩ := p
    by_cases h : k2 = k
    · simp [setEntry, h, getEntry]
    · simp [setEntry, h, getEntry, ih]

theorem setEntry_setEntry_self {κ α : Type} [DecidableEq κ]
    (l : List (κ × α)) (k : κ) (v w : α) :
    setEntry (setEntry l k v) k w = setEntry l k w := by
  induction l with
  | nil => simp [setEntry]
  | cons p rest ih =>
    obtain ⟨k2, v2⟩ := p
    by_cases h : k2 = k
    · simp [setEntry, h]
    · simp [setEntry, h, ih]

theorem merge_items_self (r : Finset String) : merge_items r r = r := by
  unfold merge_items
  by_cases h : r = ∅
  · simp [h]
  · simp [h, Finset.union_self]

theorem merge_items_absorb (e r : Finset String) :
    merge_items (merge_items e r) r = merge_items e r := by
  by_cases hr : r = ∅
  · rw [show merge_items e r = ∅ by unfold merge_items; rw [if_pos (Or.inl hr)]]
    unfold merge_items
    rw [if_pos (Or.inr rfl)]
  · by_cases he : e = ∅
    · rw [show merge_items e r = ∅ by unfold merge_items; rw [if_pos (Or.inr he)]]
      unfold merge_items
      rw [if_pos (Or.inr rfl)]
    · rw [show merge_items e r = r ∪ e by
        unfold merge_items; rw [if_neg (by simp [hr, he])]]
      unfold merge_items
      rw [if_neg (by
        simp only [not_or]
        refine ⟨hr, fun h => hr (Finset.union_eq_empty.1 h).1⟩)]
      rw [← Finset.union_assoc, Finset.union_self]

theorem add_sub_entry_some (avail subs : List (String × Finset String))
    (obj : String) (r A : Finset String) (ha : getEntry avail obj = some A) :
    add_sub_entry avail subs obj r =
      if r ≠ ∅ ∧ (if r ≠ ∅ then (if r \ A ≠ ∅ then r \ (r \ A) else r) else r) = ∅
      then subs
      else match getEntry subs obj with
        | some e => setEntry subs obj
            (merge_items e (if r ≠ ∅ then (if r \ A ≠ ∅ then r \ (r \ A) else r) else r))
        | none => setEntry subs obj
            (if r ≠ ∅ then (if r \ A ≠ ∅ then r \ (r \ A) else r) else r) := by
  simp only [add_sub_entry, ha]

theorem add_sub_entry_idem (avail subs : List (String × Finset String))
    (obj : String) (r : Finset String) :
    add_sub_entry avail (add_sub_entry avail subs obj r) obj r =
      add_sub_entry avail subs obj r := by
  cases ha : getEntry avail obj with
  | none => simp only [add_sub_entry, ha]
  | some A =>
    rw [add_sub_entry_some avail (add_sub_entry avail subs obj r) obj r A ha]
    rw [add_sub_entry_some avail subs obj r A ha]
    generalize (if r ≠ ∅ then (if r \ A ≠ ∅ then r \ (r \ A) else r) else r) = q
    by_cases hc : r ≠ ∅ ∧ q = ∅
    · rw [if_pos hc]
    · rw [if_neg hc, if_neg hc]
      cases hs : getEntry subs obj with
      | some e =>
        simp only [hs, getEntry_setEntry_self]
        rw [merge_items_absorb, setEntry_setEntry_self]
      | none =>
        simp only [hs, getEntry_setEntry_self]
        rw [merge_items_self, setEntry_setEntry_self]

/-- C5: Per object the subscription merge is commutative; the empty
(all-fields) sentinel absorbs from either side; two non-sentinel field sets
merge to their union; and re-submitting an already-merged field set leaves the
subscription table reported by `_handle_list_subscription_request`
unchanged. -/
theorem C5_merge_algebra :
    (∀ a b : Finset String, merge_items a b = merge_items b a) ∧
    (∀ a : Finset String, merge_items a ∅ = ∅ ∧ merge_items ∅ a = ∅) ∧
    (∀ a b : Finset String, a ≠ ∅ → b ≠ ∅ → merge_items a b = b ∪ a) ∧
    (∀ (st : SHState) (obj : String) (r : Finset String),
      handle_list_subscription_request
        { st with subscriptions :=
            (add_sub_entry st.available_objects
              (add_sub_entry st.available_objects st.subscriptions obj r) obj r) } =
      handle_list_subscription_request
        { st with subscriptions :=
            (add_sub_entry st.available_objects st.subscriptions obj r) }) := by
  refine ⟨?_, ?_, ?_, ?_⟩
  · intro a b
    unfold merge_items
    by_cases h : b = ∅ ∨ a = ∅
    · rw [if_pos h, if_pos h.symm]
    · rw [if_neg h, if_neg (fun hh => h hh.symm)]
      exact Finset.union_comm b a
  · intro a
    constructor
    · unfold merge_items
      rw [if_pos (Or.inl rfl)]
    · unfold merge_items
      rw [if_pos (Or.inr rfl)]
  · intro a b ha hb
    unfold merge_items
    rw [if_neg (by simp only [not_or]; exact ⟨hb, ha⟩)]
  · intro st obj r
    unfold handle_list_subscription_request
    exact add_sub_entry_idem _ _ _ _

theorem C5_witness :
    (({("a" : String)} : Finset String) ≠ ∅ ∧ ({("b" : String)} : Finset String) ≠ ∅ ∧
      merge_items ({("a" : String)} : Finset String) {("b" : String)} =
        ({("b" : String)} : Finset String) ∪ {("a" : String)}) ∧
    handle_list_subscription_request
      { shFix with subscriptions :=
          (add_sub_entry shFix.available_objects
            (add_sub_entry shFix.available_objects shFix.subscriptions
              (("toolhead" : String)) {("position" : String)})
            (("toolhead" : String)) {("position" : String)}) } =
    handle_list_subscription_request
      { shFix with subscriptions :=
          (add_sub_entry shFix.available_objects shFix.subscriptions
            (("toolhead" : String)) {("position" : String)}) } :=
  ⟨⟨by decide, by decide,
    C5_merge_algebra.2.2.1 {("a" : String)} {("b" : String)} (by decide) (by decide)⟩,
   C5_merge_algebra.2.2.2 shFix (("toolhead" : String)) {("position" : String)}⟩

/-- C8: In one subscription request, an object name missing from the catalog
is skipped without altering what the other entries of the request produce;
requested field names not available on an object are dropped (the surviving
set is the intersection with the catalog entry); and an object whose
non-empty requested set becomes empty after dropping is skipped entirely
instead of turning into an all-fields subscription. -/
theorem C8_validation (avail subs : List (String × Finset String)) (obj : String)
    (r A : Finset String) (xs ys : List (String × Finset String)) :
    (getEntry avail obj = none →
      addEntries avail subs (xs ++ (obj, r) :: ys) = addEntries avail subs (xs ++ ys)) ∧
    (getEntry avail obj = some A → r ≠ ∅ → r ∩ A ≠ ∅ →
      add_sub_entry avail subs obj r = add_sub_entry avail subs obj (r ∩ A)) ∧
    (getEntry avail obj = some A → r ≠ ∅ → r ∩ A = ∅ →
      add_sub_entry avail subs obj r = subs) := by
  refine ⟨?_, ?_, ?_⟩
  · intro ha
    unfold addEntries
    rw [List.foldl_append, List.foldl_append]
    have hskip : ∀ s : List (String × Finset String), add_sub_entry avail s obj r = s :=
      fun s => by simp only [add_sub_entry, ha]
    simp only [List.foldl_cons, hskip]
  · intro ha hr hra
    rw [add_sub_entry_some avail subs obj r A ha,
        add_sub_entry_some avail subs obj (r ∩ A) A ha]
    have h1 : (if r ≠ ∅ then (if r \ A ≠ ∅ then r \ (r \ A) else r) else r) = r ∩ A := by
      rw [if_pos hr]
      by_cases hinv : r \ A ≠ ∅
      · rw [if_pos hinv, Finset.sdiff_sdiff_self_left]
      · rw [if_neg hinv]
        push_neg at hinv
        exact (Finset.inter_eq_left.2 (Finset.sdiff_eq_empty_iff_subset.1 hinv)).symm
    have hsub : (r ∩ A) \ A = ∅ :=
      Finset.sdiff_eq_empty_iff_subset.2 Finset.inter_subset_right
    have h2 : (if r ∩ A ≠ ∅ then
        (if (r ∩ A) \ A ≠ ∅ then (r ∩ A) \ ((r ∩ A) \ A) else r ∩ A) else r ∩ A) = r ∩ A := by
      rw [if_pos hra, if_neg (fun hh => hh hsub)]
    rw [h1, h2]
    rw [if_neg (fun hh => hra hh.2), if_neg (fun hh => hra hh.2)]
  · intro ha hr hra
    rw [add_sub_entry_some avail subs obj r A ha]
    have hinv : r \ A = r := by
      rw [Finset.sdiff_eq_self_iff_disjoint, Finset.disjoint_iff_inter_eq_empty]
      exact hra
    have hreq : (if r ≠ ∅ then (if r \ A ≠ ∅ then r \ (r \ A) else r) else r) = ∅ := by
      rw [if_pos hr, hinv, if_pos hr, Finset.sdiff_self]
    rw [if_pos ⟨hr, hreq⟩]

def availFix : List (String × Finset String) :=
  [(("toolhead" : String), ({("position" : String), ("status" : String)} : Finset String))]

theorem C8_witness :
    addEntries availFix []
        ((("extruder" : String), ({("x" : String)} : Finset String)) ::
          [(("toolhead" : String), ({("position" : String)} : Finset String))]) =
      addEntries availFix []
        [(("toolhead" : String), ({("position" : String)} : Finset String))] ∧
    add_sub_entry availFix [] (("toolhead" : String))
        ({("position" : String), ("bogus" : String)} : Finset String) =
      add_sub_entry availFix [] (("toolhead" : String))
        (({("position" : String), ("bogus" : String)} : Finset String) ∩
          ({("position" : String), ("status" : String)} : Finset String)) ∧
    add_sub_entry availFix [] (("toolhead" : String))
        ({("bogus" : String)} : Finset String) = [] :=
  ⟨(C8_validation availFix [] (("extruder" : String)) ({("x" : String)} : Finset String) ∅
      [] [(("toolhead" : String), ({("position" : String)} : Finset String))]).1 rfl,
   (C8_validation availFix [] (("toolhead" : String))
      ({("position" : String), ("bogus" : String)} : Finset String)
      ({("position" : String), ("status" : String)} : Finset String) [] []).2.1
      rfl (by decide) (by decide),
   (C8_validation availFix [] (("toolhead" : String))
      ({("bogus" : String)} : Finset String)
      ({("position" : String), ("status" : String)} : Finset String) [] []).2.2
      rfl (by decide) (by decide)⟩

def c2eps : List (List Char × Handler) :=
  [(chars ("list_endpoints"), handle_list_endpoints
    [chars ("list_endpoints"), chars ("info"), chars ("emergency_stop")])]

def c2frame : List Char :=
  chars ("\x7b\"id\": 1, \"path\": \"list_endpoints\", \"args\": \x7b\x7d\x7d")

def c2wire : List Char :=
  match handle_frame c2eps 1 c2frame with
  | some (w, _) => w
  | none => []

set_option maxRecDepth 10000 in
/-- C2 counterexample: for the scenario-A request
`\x7b"id": 1, "path": "list_endpoints", "args": \x7b\x7d\x7d` the serialized
reply has NO top-level `request_id` member; its top level is the
`method`/`params` envelope (`method` is the string `"response"`), with the
claimed `request_id`/`response` dict nested under `params` — so the reply is
not the bare dict the claim states. -/
theorem C2_counterexample :
    jsonTopKey c2wire (chars ("request_id")) = none ∧
    jsonTopKey c2wire (chars ("method")) = some (.str (chars ("response"))) ∧
    (jsonTopKey c2wire (chars ("params"))).isSome = true := ⟨rfl, rfl, rfl⟩

/-- C2 (amended): for every completed request the message placed on the wire
is the terminator-framed serialization of the envelope
`\x7b'method': "response", 'params': <finish result>\x7d`, where the `params`
member is the `\x7b"request_id": <echoed id>, "response": <value>\x7d` dict
the original claim described. -/
theorem C2_wire_envelope (eps : List (List Char × Handler)) (wr : WebRequest) :
    ∃ v : JVal,
      (process_request_wire eps wr).1 =
        encode (.obj [(chars ("method"), .str (chars ("response"))),
          (chars ("params"),
            .obj [(chars ("request_id"), (process_request eps wr).1.id),
                  (chars ("response"), v)])]) :=
  ⟨match (process_request eps wr).1.response with
    | none => .str (chars ("ok"))
    | some v => v, rfl⟩

def c3methodFrame : List Char :=
  chars ("\x7b\"id\": 1, \"method\": \"list_endpoints\", \"params\": \x7b\x7d\x7d")

def c3ms : List (List Char × JVal) :=
  [(chars ("id"), .int 1), (chars ("method"), .str (chars ("list_endpoints"))),
   (chars ("params"), .obj [])]

/-- C3 counterexample: the frame using `method`/`params` in place of
`path`/`args` is dropped with no reply at all (`WebRequest.__init__` raises
`KeyError` on `base_request['path']`), while the same request written with
`path`/`args` is routed and answered. -/
theorem C3_counterexample :
    handle_frame c2eps 3 c3methodFrame = none ∧
    (handle_frame c2eps 3 c2frame).isSome = true := ⟨rfl, rfl⟩

/-- C3 (amended): the request constructor reads exactly the keys `id`, `path`
and `args`: a decoded JSON object yields a dispatchable request iff all three
are present, and a frame whose object lacks `path` (e.g. one using
`method`/`params` instead) is dropped with no reply. -/
theorem C3_fields_required (uid : Nat) (ms : List (List Char × JVal)) :
    ((WebRequest.ofJson uid (.obj ms)).isSome = true ↔
      ((jlookup ms (chars ("id"))).isSome = true ∧
       (jlookup ms (chars ("path"))).isSome = true ∧
       (jlookup ms (chars ("args"))).isSome = true)) ∧
    (∀ (eps : List (List Char × Handler)) (frame : List Char),
      json_loads frame = some (.obj ms) →
      jlookup ms (chars ("path")) = none →
      handle_frame eps uid frame = none) := by
  constructor
  · unfold WebRequest.ofJson
    cases hi : jlookup ms (chars ("id")) <;>
      cases hp : jlookup ms (chars ("path")) <;>
        cases ha : jlookup ms (chars ("args")) <;> simp [hi, hp, ha]
  · intro eps frame hjson hpath
    unfold handle_frame
    rw [hjson]
    have hof : WebRequest.ofJson uid (.obj ms) = none := by
      simp only [WebRequest.ofJson]
      rw [hpath]
      cases jlookup ms (chars ("id")) <;> cases jlookup ms (chars ("args")) <;> rfl
    simp [hof]

theorem C3_witness :
    ((WebRequest.ofJson 3 (.obj c3ms)).isSome = true ↔
      ((jlookup c3ms (chars ("id"))).isSome = true ∧
       (jlookup c3ms (chars ("path"))).isSome = true ∧
       (jlookup c3ms (chars ("args"))).isSome = true)) ∧
    handle_frame c2eps 3 c3methodFrame = none :=
  ⟨(C3_fields_required 3 c3ms).1,
   (C3_fields_required 3 c3ms).2 c2eps c3methodFrame rfl rfl⟩

def c4state : SHState :=
  { ready := true, timer_started := true, timer_waketime := .NOW,
    available_objects := [(("toolhead" : String), ({("position" : String)} : Finset String))],
    subscriptions := [(("toolhead" : String), ({("position" : String)} : Finset String))],
    clients := [] }

def c4args : List (String × Finset String) :=
  [(("toolhead" : String), ({("position" : String)} : Finset String))]

/-- C4: a restart does stop the periodic timer (never sentinel) and mark the
engine not-ready, but because `_handle_restart` never clears `timer_started`,
a subsequent successful subscription does NOT re-arm the timer: the subscribe
succeeds (no error, the subscription is recorded) yet the waketime stays at
the never sentinel — the lazy restart the claim promises does not happen. -/
theorem C4_restart_timer_not_rearmed :
    (handle_restart c4state).ready = false ∧
    (handle_restart c4state).timer_waketime = .NEVER ∧
    (handle_restart c4state).timer_started = true ∧
    (handle_subscription_request (handle_restart c4state) 5 c4args none).2 = none ∧
    (handle_subscription_request (handle_restart c4state) 5 c4args none).1.subscriptions =
      [(("toolhead" : String), ({("position" : String)} : Finset String))] ∧
    (handle_subscription_request (handle_restart c4state) 5 c4args none).1.timer_waketime =
      .NEVER :=
  ⟨rfl, rfl, rfl, rfl, by decide, rfl⟩

